import Mathlib

/-!
# Ripple (AlexIsTheGuy/Ripple) — `src/js/ripple.js`

A shallow embedding of the ripple library: the trigger registry
(`Ripple.triggerClasses`, `Ripple.triggerElements`), the public facade
(`Ripple.attach`, `Ripple.detach`, `Ripple.initialize`), the geometry of
`addRipple` and the trigger resolution of `RippleEffect.passArguments`.

Conventions of the embedding:

* an `HTMLElement` is a reference; it is modelled by a natural number
  (`Elem`), and reference equality is equality of the numbers;
* a JavaScript object is the list of its own enumerable properties in the
  order `Object.keys` reports them (`JSObject`); its prototype is
  `Object.prototype`, which shows in the assignment to `__proto__`
  (`JSObject.set`) and in the read of a computed key (`lookup`);
* `Math.random` is an oracle: `rand i` is the value of
  `Math.floor(Math.random() * charSet.length)` at the `i`-th draw;
* a `throw` is the `Except.error` of `Except JSError`;
* numbers of the geometry are elements of a linearly ordered field, whose
  arithmetic is that of the doubles on the coordinates called `pixel`, and
  `Math.sqrt` is a parameter of the functions that call it, of which
  `roundsToNearest` says what IEEE 754 asks.
-/

namespace RippleJS

/-! ## JavaScript values -/

/-- An `HTMLElement`, by reference. -/
abbrev Elem := Nat

/-- The JavaScript values the library is called with. `object` is a plain
object (neither iterable nor array-like), given by its own enumerable
properties. -/
inductive JSVal where
  | undefined
  | null
  | bool (b : Bool)
  | num (q : ℚ)
  | nan
  | str (s : String)
  | element (e : Elem)
  | array (xs : List JSVal)
  | object (props : List (String × JSVal))

/-- The errors the library throws. -/
inductive JSError where
  | ReferenceError
  | TypeError
  | SyntaxError
  | InvalidCharacterError
  deriving DecidableEq, Repr

/-- The own enumerable properties of an object, in `Object.keys` order. -/
abbrev JSObject (α : Type) := List (String × α)

/-- JavaScript's `ToBoolean`: what `!v` negates. -/
def truthy : JSVal → Bool
  | .undefined => false
  | .null => false
  | .bool b => b
  | .num q => decide (q ≠ 0)
  | .nan => false
  | .str s => decide (s ≠ "")
  | .element _ => true
  | .array _ => true
  | .object _ => true

/-- The value of `v instanceof HTMLElement`. -/
def isHTMLElement : JSVal → Bool
  | .element _ => true
  | _ => false

/-- A parameter default `param = d`: `d` replaces `undefined`. -/
def orDefault (v d : JSVal) : JSVal :=
  match v with
  | .undefined => d
  | w => w

/-- The value of a decimal digit. -/
def digitValue (c : Char) : Option Nat :=
  if '0' ≤ c ∧ c ≤ '9' then some (c.toNat - '0'.toNat) else none

/-- The number a string of decimal digits denotes. -/
def digitsValue (cs : List Char) : Option Nat :=
  cs.foldl (fun acc c =>
    match acc, digitValue c with
    | some a, some d => some (10 * a + d)
    | _, _ => none) (some 0)

/-- The array index a property key denotes, if it is one: a canonical decimal
numeral below `2 ^ 32 - 1`. -/
def arrayIndex (k : String) : Option Nat :=
  match k.data with
  | [] => none
  | ['0'] => some 0
  | '0' :: _ => none
  | cs =>
    match digitsValue cs with
    | some n => if n < 4294967295 then some n else none
    | none => none

/-- Whether a new key `k` is listed before the existing key `k'`: array
indices come first, in ascending order; the other keys follow in the order
of their creation. -/
def comesBefore (k k' : String) : Bool :=
  match arrayIndex k, arrayIndex k' with
  | some n, some m => decide (n < m)
  | some _, none => true
  | none, _ => false

namespace JSObject

variable {α : Type}

/-- The value of `Object.keys(o)`. -/
def keys (o : JSObject α) : List String := o.map Prod.fst

/-- The value of `k in o` for own properties. -/
def has (o : JSObject α) (k : String) : Bool := o.any (fun e => e.1 == k)

/-- The value of `o[k]`; `none` is `undefined`. -/
def get (o : JSObject α) (k : String) : Option α :=
  (o.find? (fun e => e.1 == k)).map Prod.snd

/-- The creation of the property `k`, which `o` does not have. -/
def insertNew (k : String) (v : α) : JSObject α → JSObject α
  | [] => [(k, v)]
  | e :: rest =>
    if comesBefore k e.1 then (k, v) :: e :: rest else e :: insertNew k v rest

/-- The assignment `o[k] = v` on a plain object: an existing property keeps
its place and takes the value; the key `__proto__`, where `o` has no property
of that name, reaches the setter `o` inherits from `Object.prototype`, which
creates no property; every other key is created. -/
def set (o : JSObject α) (k : String) (v : α) : JSObject α :=
  if o.has k then o.map (fun e => if e.1 = k then (k, v) else e)
  else if k = "__proto__" then o
  else insertNew k v o

/-- The statement `delete o[k]`. -/
def delete (o : JSObject α) (k : String) : JSObject α :=
  o.filter (fun e => e.1 != k)

end JSObject

/-- The own enumerable properties an object spread `{...v}` copies. -/
def spread : JSVal → JSObject JSVal
  | .object props => props
  | .array xs => xs.enum.map (fun p => (toString p.1, p.2))
  | .str s => s.data.enum.map (fun p => (toString p.1, JSVal.str ⟨[p.2]⟩))
  | _ => []

/-- The method `Array.prototype.flat(depth)`. -/
def flat : Nat → List JSVal → List JSVal
  | 0, xs => xs
  | d + 1, xs => xs.flatMap (fun x =>
      match x with
      | .array ys => flat d ys
      | v => [v])

/-- The method `String.prototype.split(',')`, on the characters. -/
def splitComma : List Char → List (List Char)
  | [] => [[]]
  | c :: rest =>
    if c = ',' then [] :: splitComma rest
    else
      match splitComma rest with
      | [] => [[c]]
      | piece :: pieces => (c :: piece) :: pieces

/-- The value of `s.split(',')`. -/
def split (s : String) : List String := (splitComma s.data).map String.mk

/-- The value of `s[0] === '.'`. -/
def startsWithDot (s : String) : Bool :=
  match s.data with
  | '.' :: _ => true
  | _ => false

/-- The value `s` has after `if (s[0] === '.') { s = s.substring(1) }`. -/
def stripDot (s : String) : String :=
  match s.data with
  | '.' :: rest => ⟨rest⟩
  | _ => s

/-! ## Geometry utilities -/

/-- The constant `charSet` of `genRandomID`. -/
def charSet : List Char := "ABCDEFGHIJKLMNOPQRSTUVWXYZabcdefghijklmnopqrstuvwxyz".data

/-- The function `genRandomID(len)`; `rand i` is the `i`-th value of
`Math.floor(Math.random() * charSet.length)`. -/
def genRandomID (rand : Nat → Fin 52) (len : Nat) : String :=
  ⟨(List.range len).flatMap (fun i => (charSet.drop (rand i).val).take 1)⟩

/-- The function `getDistance(x1, y1, x2, y2)`. The numbers are those of an
ordered field, whose arithmetic is exact, and `Math.sqrt` is the parameter
`sqrt`: the differences, the products and the sum are those of the doubles
where the coordinates are `pixel`s, and the rounding of `Math.sqrt` is what
is assumed of `sqrt`. -/
def getDistance {K : Type} [LinearOrderedField K] (sqrt : K → K) (x1 y1 x2 y2 : K) : K :=
  let x := x2 - x1
  let y := y2 - y1
  sqrt (x * x + y * y)

/-- A coordinate on which the arithmetic of `getDistance` is exact in IEEE
doubles: a multiple of one half of magnitude at most `2 ^ 24`, as the pixel
counts of the document and their halves are. -/
def pixel {K : Type} [LinearOrderedField K] (x : K) : Prop :=
  ∃ n : ℤ, 2 * x = (n : K) ∧ |n| ≤ 2 ^ 25

/-- What IEEE 754 asks of `Math.sqrt`: the double nearest to the square root,
which is off by at most the unit roundoff `2 ^ -53`, relatively. -/
def roundsToNearest {K : Type} [LinearOrderedField K] (sqrt : K → K) : Prop :=
  ∀ q, 0 ≤ q → 0 ≤ sqrt q ∧ (1 - 1 / 2 ^ 53) ^ 2 * q ≤ sqrt q * sqrt q ∧
    sqrt q * sqrt q ≤ (1 + 1 / 2 ^ 53) ^ 2 * q

/-- The double `Math.sqrt(2561)` returns, `50.60632371551998`: the multiple
of `2 ^ -47` nearest to the square root of `2561`. -/
def Math.sqrt2561 : ℚ := 890275861827369 / 2 ^ 44

/-! ## Trigger registry -/

/-- A value of `Ripple.triggerClasses`: `{'ripple': {..._options}}`. -/
structure ClassTrigger where
  ripple : JSObject JSVal

/-- A value of `Ripple.triggerElements`:
`{'ripple': {..._options}, 'elements': _elements}`. -/
structure ElementsTrigger where
  ripple : JSObject JSVal
  elements : List Elem

/-- The object `window.Ripple`: the two registries. -/
structure Ripple where
  triggerClasses : JSObject ClassTrigger
  triggerElements : JSObject ElementsTrigger

/-- The function `attachClass(_classname, _options)`. -/
def attachClass (R : Ripple) (_classname : JSVal) (_options : JSVal) :
    Except JSError Ripple :=
  let _options := orDefault _options (.object [])
  match _classname with
  | .str s =>
    .ok { R with triggerClasses := R.triggerClasses.set (stripDot s) ⟨spread _options⟩ }
  | _ => .error .TypeError

/-- The function `attachElements(_elements, _options)`. Its only caller passes
the array of the `HTMLElement`s it collected, so `_elements` is a list of
elements and the `Array.isArray` guard cannot fail. -/
def attachElements (R : Ripple) (_elements : List Elem) (_options : JSVal)
    (rand : Nat → Fin 52) : Except JSError Ripple :=
  let _options := orDefault _options (.object [])
  .ok { R with triggerElements :=
    R.triggerElements.set (genRandomID rand 16) ⟨spread _options, _elements⟩ }

/-- The function `detachClass(_class)`, called with a string. -/
def detachClass (R : Ripple) (_class : String) : Ripple :=
  { R with triggerClasses := R.triggerClasses.delete (stripDot _class) }

/-- The value of `elements.includes(v)` for an array of `HTMLElement`s. -/
def includes (elements : List Elem) : JSVal → Bool
  | .element e => elements.contains e
  | _ => false

/-- The value of `value !== _element` for an element `value` of a group. -/
def differs (_element : JSVal) (value : Elem) : Bool :=
  match _element with
  | .element e => value != e
  | _ => true

/-- The function `detachElement(_element)`: the registry it leaves and the
value it returns. `Object.keys(o).find(key => o[key]...)` is the search of
the first property of `o` whose value passes the test. -/
def detachElement (R : Ripple) (_element : JSVal) : Ripple × JSVal :=
  match R.triggerElements.find? (fun entry => includes entry.2.elements _element) with
  | none => (R, .bool false)
  | some (valueID, group) =>
    if valueID = "" then (R, .bool false)
    else
      let elements := group.elements.filter (differs _element)
      let triggerElements := R.triggerElements.set valueID { group with elements := elements }
      if elements.length = 0 then
        ({ R with triggerElements := triggerElements.delete valueID }, .undefined)
      else
        ({ R with triggerElements := triggerElements }, .undefined)

/-- The callback of `elements.forEach` in the array branch of `Ripple.attach`:
the registry and the array `_elements` after one item. -/
def attachItem (options : JSVal) (acc : Ripple × List Elem) (_arrayItem : JSVal) :
    Except JSError (Ripple × List Elem) :=
  match _arrayItem with
  | .str s => do
    let R ← attachClass acc.1 (.str s) options
    pure (R, acc.2)
  | .element e => pure (acc.1, acc.2 ++ [e])
  | _ => pure acc

/-- The function `Ripple.attach(elements, options)`. -/
def Ripple.attach (R : Ripple) (elements : JSVal) (options : JSVal)
    (rand : Nat → Fin 52) : Except JSError Ripple :=
  let options := orDefault options (.object [])
  if !truthy elements then .error .ReferenceError
  else
    let elements := if isHTMLElement elements then JSVal.array [elements] else elements
    match elements with
    | .str s => (split s).foldlM (fun R _className => attachClass R (.str _className) options) R
    | .array xs => do
      let acc ← (flat 16 xs).foldlM (attachItem options) (R, [])
      if acc.2.length > 0 then attachElements acc.1 acc.2 options rand
      else pure acc.1
    | _ => .error .TypeError

/-- The value of `Array.from(v)` for a value that is not a string. -/
def arrayFrom : JSVal → Except JSError (List JSVal)
  | .undefined => .error .TypeError
  | .null => .error .TypeError
  | .array xs => .ok xs
  | _ => .ok []

/-- The function `Ripple.detach(elements)`: the registry it leaves and the
value it returns. -/
def Ripple.detach (R : Ripple) (elements : JSVal) : Except JSError (Ripple × JSVal) :=
  match elements with
  | .str s => .ok ((split s).foldl detachClass R, .undefined)
  | _ => do
    let elements := if isHTMLElement elements then JSVal.array [elements] else elements
    let items ← arrayFrom elements
    pure ((flat 1 items).foldl (fun R _element => (detachElement R _element).1) R, .undefined)

/-! ## Effect engine -/

/-- The constant `defaultOptions`. -/
def defaultOptions : JSObject JSVal :=
  [("debug", .bool false),
   ("ripple", .object
     [("duration", .num 225),
      ("delay", .num 200),
      ("disabledAttribute", .bool true),
      ("disabled", .bool false),
      ("centered", .bool false),
      ("copyBorderRadius", .bool true),
      ("helperClass", .bool true),
      ("container", .str ".ripple-container"),
      ("target", .bool false)])]

/-- The value of `o[k]` as a JavaScript value, for a key that `o` has or that
`Object.prototype` does not define, as are the keys the program writes out
(`'ripple'`, `'duration'`, ...): a missing property reads `undefined`. -/
def prop (o : JSObject JSVal) (k : String) : JSVal := (o.get k).getD .undefined

/-- The names of the properties a plain object inherits from
`Object.prototype`. -/
def Object.prototype : List String :=
  ["constructor", "__defineGetter__", "__defineSetter__", "hasOwnProperty",
    "__lookupGetter__", "__lookupSetter__", "isPrototypeOf", "propertyIsEnumerable",
    "toString", "valueOf", "__proto__", "toLocaleString"]

/-- The value a plain object inherits under a name of `Object.prototype`: a
built-in function, or the prototype itself under `__proto__`. The program
only compares it with `undefined` and stores it, and it is written here as
the object without enumerable properties of its own. -/
def Object.inherited : JSVal := .object []

/-- The value of `o[k]` for a plain object `o` and a key `k` that is
computed: the property `o` has, else the one it inherits from
`Object.prototype`, else `undefined`. -/
def lookup (o : JSObject JSVal) (k : String) : JSVal :=
  match o.get k with
  | some v => v
  | none => if k ∈ Object.prototype then Object.inherited else .undefined

/-- The value of `v === undefined`. -/
def isUndefined : JSVal → Bool
  | .undefined => true
  | _ => false

/-- The value of `v === false`. -/
def isFalse : JSVal → Bool
  | .bool false => true
  | _ => false

/-- The properties `Object.keys(v).forEach(k => ... v[k] ...)` visits;
`Object.keys` throws on `undefined` and `null`. -/
def ownProperties : JSVal → Except JSError (JSObject JSVal)
  | .undefined => .error .TypeError
  | .null => .error .TypeError
  | v => .ok (spread v)

/-- The argument `x` or `y` of `addRipple`: a number or the shorthand `'c'`. -/
inductive Coord (K : Type) where
  | c
  | num (v : K)

/-- The `div` that `addRipple` creates: its inline style (in `px` and `ms`)
and its `data-ripple-*` attributes. -/
structure RippleNode (K : Type) where
  left : K
  top : K
  width : K
  height : K
  transitionDuration : JSVal
  rippleCreated : Nat
  rippleId : String

/-- The element `rippleContainer` of `passArguments`: an element of the
document, or the `div` that `document.createElement` returned, with the class
added to it and the border radius copied to it (if one was). -/
inductive Container where
  | existing (el : Elem)
  | created (className : String) (borderRadius : Option String)

/-- A value of `this.activeRipples`. -/
structure ActiveRipple (K : Type) where
  target : Elem
  ripple : RippleNode K
  options : JSObject JSVal
  touchMoved : Bool

/-- The state of a `RippleEffect`. `touchDelay` is `undefined` until
`passArguments` assigns it. -/
structure RippleEffect (K : Type) where
  options : JSObject JSVal
  touchEnd : Bool
  touchDelay : JSVal
  activeRipples : JSObject (ActiveRipple K)

/-- The constructor of `RippleEffect`. (With `debug` set it also stores the
engine under `Ripple.effect`, which is no part of the registries.) -/
def RippleEffect.constructor {K : Type} (options : JSVal) : Except JSError (RippleEffect K) := do
  let options := orDefault options (.object [])
  let supplied ← ownProperties options
  pure
    { options := supplied.foldl (fun o option => o.set option.1 option.2) defaultOptions
      touchEnd := false
      touchDelay := .undefined
      activeRipples := [] }

/-- The function `Ripple.initialize(options)`: the engine whose handlers it
installs on `document.body`. -/
def Ripple.initialize {K : Type} (options : JSVal) : Except JSError (RippleEffect K) :=
  RippleEffect.constructor options

/-- An item of `e.composedPath()`: an `HTMLElement` or something else
(`window`, `document`, a node that is no `HTMLElement`). -/
inductive EventTarget where
  | element (el : Elem)
  | other

/-- The event `e` of `passArguments`: what the function reads of it.
`button` is `none` where the event has none; `targetTouches` holds the
`clientX` and `clientY` of each touch. -/
structure Event (K : Type) where
  type : String
  button : Option Nat
  composedPath : List EventTarget
  clientX : K
  clientY : K
  targetTouches : List (K × K)

/-- The document as `passArguments` reads it. The two query functions are
given the selector string the code builds; a selector the document cannot
parse makes them throw. -/
structure DOM (K : Type) where
  classList : Elem → List String
  rippleTriggerFor : Elem → Option String
  rippleContainerClass : Elem → Option String
  disabled : Elem → Bool
  clientWidth : Elem → K
  clientHeight : Elem → K
  boundingX : Elem → K
  boundingY : Elem → K
  children : Elem → List Elem
  borderRadius : Elem → String
  querySelectorAll : String → Except JSError (List Elem)
  querySelector : Elem → String → Except JSError (Option Elem)

/-- The truth value of a `dataset` entry: present and not empty. -/
def truthyData : Option String → Bool
  | some s => decide (s ≠ "")
  | none => false

/-- The variables `trigger`, `targets` and `tempOptions` of `passArguments`
once they are assigned (the three are assigned together). -/
structure Resolved where
  trigger : Elem
  targets : List Elem
  tempOptions : JSObject JSVal

/-- The three variables: `none` while they are `undefined`, so that
`!trigger && !targets` is `isNone`. -/
abbrev Resolution := Option Resolved

/-- The callback of `Object.keys(Ripple.triggerClasses).forEach`, at the
property `entry` of `Ripple.triggerClasses`. -/
def classStep {K : Type} (D : DOM K) (el : Elem) (r : Resolution)
    (entry : String × ClassTrigger) : Resolution :=
  if (D.classList el).contains entry.1 then
    some { trigger := el, targets := [el], tempOptions := entry.2.ripple }
  else r

/-- The part of the `composedPath` callback that looks `el` up in
`Ripple.triggerElements`. -/
def groupStep (R : Ripple) (el : Elem) (r : Resolution) : Resolution :=
  match R.triggerElements.find? (fun entry => entry.2.elements.contains el) with
  | none => r
  | some (valueID, group) =>
    if valueID = "" then r
    else if group.elements.contains el then
      some { trigger := el, targets := [el], tempOptions := group.ripple }
    else r

/-- The callback of `e.composedPath().forEach` in `passArguments`. -/
def pathStep {K : Type} (E : RippleEffect K) (R : Ripple) (D : DOM K) (r : Resolution)
    (item : EventTarget) : Except JSError Resolution :=
  match item with
  | .other => pure r
  | .element el => do
    let r ←
      if truthyData (D.rippleTriggerFor el) then do
        let targets ← D.querySelectorAll
          ("[data-ripple-target='" ++ (D.rippleTriggerFor el).getD "" ++ "']")
        pure (some { trigger := el, targets := targets,
                     tempOptions := spread (prop E.options "ripple") })
      else if r.isNone then pure (R.triggerClasses.foldl (classStep D el) r)
      else pure r
    if r.isNone then pure (groupStep R el r) else pure r

/-- The loop `e.composedPath().forEach(...)` of `passArguments`. -/
def resolveTrigger {K : Type} (E : RippleEffect K) (R : Ripple) (D : DOM K)
    (path : List EventTarget) : Except JSError Resolution :=
  path.foldlM (pathStep E R D) none

/-- The merge of `passArguments`: a copy of `this.options['ripple']` in which
every key takes the value `tempOptions` has for it, unless that is
`undefined`. -/
def mergeOptions (ripple tempOptions : JSObject JSVal) : JSObject JSVal :=
  ripple.keys.foldl
    (fun options option =>
      if isUndefined (lookup tempOptions option) then options
      else options.set option (lookup tempOptions option))
    ripple

/-- The block `if (options['target'] !== false) { ... }` of `passArguments`:
the options and the targets it leaves. The call `options['target'].isArray()`
throws on every value that reaches it. -/
def applyTarget {K : Type} (D : DOM K) (options : JSObject JSVal) (targets : List Elem) :
    Except JSError (JSObject JSVal × List Elem) :=
  if isFalse (prop options "target") then pure (options, targets)
  else
    match prop options "target" with
    | .str s =>
      if s ≠ "" then do
        let options :=
          if startsWithDot s then options.set "target" (.str (stripDot s)) else options
        let found ← D.querySelectorAll ("." ++ stripDot s)
        pure (options, found)
      else .error .TypeError
    | .element el => pure (options, [el])
    | _ => .error .TypeError

/-- The function `Math.round`. -/
def Math.round {K : Type} [LinearOrderedField K] [FloorRing K] (x : K) : K :=
  ((⌊x + 1 / 2⌋ : ℤ) : K)

/-- The corner `(x2, y2)` that `addRipple` selects for the origin `(x, y)` in a
target of width `w` and height `h`. -/
def addRippleCorner {K : Type} [LinearOrderedField K] (w h x y : K) : K × K :=
  let x2 : K := 0
  let y2 : K := 0
  let y2 := if (x ≤ w / 2 ∧ y ≤ h / 2) ∨ (x > w / 2 ∧ y ≤ h / 2) then h else y2
  let x2 := if (x ≤ w / 2 ∧ y ≤ h / 2) ∨ (x ≤ w / 2 ∧ y > h / 2) then w else x2
  (x2, y2)

/-- The variable `rippleSize` of `addRipple`. -/
def addRippleSize {K : Type} [LinearOrderedField K] (sqrt : K → K) (w h x y : K) : K :=
  getDistance sqrt x y (addRippleCorner w h x y).1 (addRippleCorner w h x y).2

/-- The function `addRipple(x, y, target, rippleContainer, options)`, up to
its call of `showRipple`: the engine with the new entry of `activeRipples`,
and the node it returns. `now` is the value of `Date.now()`; a `none`
container is `null` (`appendChild` of `null` throws), a `none` options is
`undefined`. -/
def addRipple {K : Type} [LinearOrderedField K] (sqrt : K → K) (D : DOM K)
    (E : RippleEffect K) (rand : Nat → Fin 52) (now : Nat) (x y : Coord K) (target : Elem)
    (rippleContainer : Option Container) (options : Option (JSObject JSVal)) :
    Except JSError (RippleEffect K × RippleNode K) :=
  let options := options.getD (spread (prop E.options "ripple"))
  let x := match x with
    | .c => D.clientWidth target / 2
    | .num v => v
  let y := match y with
    | .c => D.clientHeight target / 2
    | .num v => v
  let randomID := genRandomID rand 16
  let rippleSize := addRippleSize sqrt (D.clientWidth target) (D.clientHeight target) x y
  let ripple : RippleNode K :=
    { left := -rippleSize + x
      top := -rippleSize + y
      width := rippleSize * 2
      height := rippleSize * 2
      transitionDuration := prop options "duration"
      rippleCreated := now
      rippleId := randomID }
  let entry : ActiveRipple K :=
    { target := target, ripple := ripple, options := options, touchMoved := false }
  match rippleContainer with
  | none => .error .TypeError
  | some _ => .ok ({ E with activeRipples := E.activeRipples.set randomID entry }, ripple)

/-- The method `classList.add(token)`: the error it throws, if any. -/
def classListAdd (token : String) : Except JSError Unit :=
  if token = "" then .error .SyntaxError
  else if token.data.any (fun ch => ch = ' ' ∨ ch = '\t' ∨ ch = '\n' ∨ ch = '\r' ∨ ch.toNat = 12)
  then .error .InvalidCharacterError
  else .ok ()

/-- The container resolution of `passArguments` for one target: the options
(whose `container` the code rewrites) and `rippleContainer`, `none` for
`null`. -/
def resolveContainer {K : Type} (D : DOM K) (options : JSObject JSVal) (target : Elem) :
    Except JSError (JSObject JSVal × Option Container) :=
  if truthyData (D.rippleContainerClass target) then do
    let found ← D.querySelector target
      ("." ++ stripDot ((D.rippleContainerClass target).getD ""))
    pure (options, found.map Container.existing)
  else
    match prop options "container" with
    | .str c =>
      if c ≠ "" ∧ c ≠ "." then do
        let options :=
          if startsWithDot c then options.set "container" (.str (stripDot c)) else options
        let found ← D.querySelector target ("." ++ stripDot c)
        let isDirectChild :=
          match found with
          | some q => (D.children q).any (fun el => el == q)
          | none => false
        if found.isSome && isDirectChild then pure (options, found.map Container.existing)
        else do
          classListAdd (stripDot c)
          let radius :=
            if truthy (prop options "copyBorderRadius")
                || (D.classList target).contains "ripple-copy-radius"
            then some (D.borderRadius target) else none
          pure (options, some (Container.created (stripDot c) radius))
      else pure (options, some (Container.existing target))
    | _ => pure (options, some (Container.existing target))

/-- One call of `addRipple` by `passArguments`: the target, its container,
whether `ripple-helper-class` was added to the target, and the node. -/
structure Created (K : Type) where
  target : Elem
  container : Container
  helperClass : Bool
  ripple : RippleNode K

/-- The state of the loop `targets.forEach(...)` of `passArguments`: the
shared `options`, the engine, and the ripples created so far. -/
structure TargetLoop (K : Type) where
  options : JSObject JSVal
  effect : RippleEffect K
  created : List (Created K)

/-- The callback of `targets.forEach` in `passArguments`. The `n`-th call of
`addRipple` draws its identifier from `rand n` and reads the time `now n`;
`ev` is `none` where `e.targetTouches` is empty. The entry of `activeRipples`
holds the options as they are when the ripple of the target is added; the
entries of one event share that object in the code, of which a later target
may rewrite `container` once more (a name with several leading dots). -/
def targetStep {K : Type} [LinearOrderedField K] [FloorRing K] (sqrt : K → K) (D : DOM K)
    (rand : Nat → Nat → Fin 52) (now : Nat → Nat) (trigger : Elem) (ev : Option (K × K))
    (st : TargetLoop K) (target : Elem) : Except JSError (TargetLoop K) :=
  if truthy (prop st.options "disabled") || (D.classList trigger).contains "ripple-disabled"
      || (D.classList target).contains "ripple-disabled" then pure st
  else if truthy (prop st.options "disabledAttribute")
      && (D.disabled trigger || D.disabled target) then pure st
  else do
    let rel ←
      if (D.classList target).contains "ripple-centered" || truthy (prop st.options "centered")
      then pure (D.clientWidth target / 2, D.clientHeight target / 2)
      else
        match ev with
        | none => .error .TypeError
        | some (clientX, clientY) =>
          pure (clientX - Math.round (D.boundingX trigger),
                clientY - Math.round (D.boundingY trigger))
    let resolved ← resolveContainer D st.options target
    let helperClass := truthy (prop resolved.1 "helperClass")
      && !((D.classList trigger).contains "ripple-no-helper-class"
            || (D.classList target).contains "ripple-no-helper-class")
    match resolved.2 with
    | none => .error .TypeError
    | some container => do
      let added ← addRipple sqrt D st.effect (rand st.created.length) (now st.created.length)
        (.num rel.1) (.num rel.2) target (some container) (some resolved.1)
      pure { options := resolved.1, effect := added.1,
             created := st.created ++ [⟨target, container, helperClass, added.2⟩] }

/-- What a call of `passArguments` leaves: the engine, the ripples it created,
and the error it threw, if any. -/
structure PassResult (K : Type) where
  effect : RippleEffect K
  created : List (Created K)
  thrown : Option JSError

/-- The loop `targets.forEach(...)`: a throw ends it and keeps what the
earlier targets did. -/
def forEachTarget {K : Type} (step : TargetLoop K → Elem → Except JSError (TargetLoop K))
    (st : TargetLoop K) : List Elem → PassResult K
  | [] => ⟨st.effect, st.created, none⟩
  | target :: rest =>
    match step st target with
    | .ok st' => forEachTarget step st' rest
    | .error err => ⟨st.effect, st.created, some err⟩

/-- The function `passArguments(e)` of the engine `E`, with the registries
`R` and the document `D`. -/
def passArguments {K : Type} [LinearOrderedField K] [FloorRing K] (sqrt : K → K)
    (E : RippleEffect K) (R : Ripple) (D : DOM K) (rand : Nat → Nat → Fin 52)
    (now : Nat → Nat) (e : Event K) : PassResult K :=
  if E.touchEnd && e.type == "mousedown" then ⟨E, [], none⟩
  else if e.type == "mousedown" && e.button == some 2 then ⟨E, [], none⟩
  else
    match resolveTrigger E R D e.composedPath with
    | .error err => ⟨E, [], some err⟩
    | .ok none => ⟨E, [], none⟩
    | .ok (some r) =>
      match applyTarget D (mergeOptions (spread (prop E.options "ripple")) r.tempOptions)
          r.targets with
      | .error err => ⟨E, [], some err⟩
      | .ok (options, targets) =>
        let touchDelay := if e.type == "touchstart" then prop options "delay" else .num 0
        let ev := if e.type == "touchstart" then e.targetTouches.getLast?
          else some (e.clientX, e.clientY)
        forEachTarget (targetStep sqrt D rand now r.trigger ev)
          { options := options, effect := { E with touchDelay := touchDelay }, created := [] }
          targets

/-! ## Nested lists, as the specification speaks of them -/

mutual
/-- The leaves of a value, left to right: a list has the leaves of its items,
any other value is its own leaf. -/
def JSVal.leaves : JSVal → List JSVal
  | .array xs => leavesList xs
  | v => [v]
/-- The leaves of the items of a list, left to right. -/
def leavesList : List JSVal → List JSVal
  | [] => []
  | x :: xs => x.leaves ++ leavesList xs
end

mutual
/-- The depth to which lists are nested in a value: `0` for a value that is
no list, one more than the deepest item for a list. -/
def JSVal.depth : JSVal → Nat
  | .array xs => depthList xs + 1
  | _ => 0
/-- The depth of the deepest item of a list. -/
def depthList : List JSVal → Nat
  | [] => 0
  | x :: xs => max x.depth (depthList xs)
end

/-- The value `v` inside `n` nested lists of one item: `nest 2 v` is
`[[v]]`. -/
def nest : Nat → JSVal → JSVal
  | 0, v => v
  | n + 1, v => .array [nest n v]

/-- The class-name strings among some values. -/
def strings (vs : List JSVal) : List String :=
  vs.filterMap (fun v =>
    match v with
    | .str s => some s
    | _ => none)

/-- The elements among some values. -/
def elementsOf (vs : List JSVal) : List Elem :=
  vs.filterMap (fun v =>
    match v with
    | .element e => some e
    | _ => none)

/-! ## Matching, as the specification speaks of it -/

/-- The element carries a trigger-for attribute (one that is not empty). -/
def matchesAttribute {K : Type} (D : DOM K) (el : Elem) : Bool :=
  truthyData (D.rippleTriggerFor el)

/-- The element carries a registered class name. -/
def matchesClass {K : Type} (R : Ripple) (D : DOM K) (el : Elem) : Bool :=
  R.triggerClasses.any (fun entry => (D.classList el).contains entry.1)

/-- The element is a member of a registered group. -/
def matchesGroup (R : Ripple) (el : Elem) : Bool :=
  R.triggerElements.any (fun entry => entry.2.elements.contains el)

/-- The item of the path is an element that matches in one of the three
ways. -/
def matchesAny {K : Type} (R : Ripple) (D : DOM K) : EventTarget → Bool
  | .element el => matchesAttribute D el || matchesClass R D el || matchesGroup R el
  | .other => false

/-- The item of the path is an element that carries a trigger-for
attribute. -/
def carriesAttribute {K : Type} (D : DOM K) : EventTarget → Bool
  | .element el => matchesAttribute D el
  | .other => false

/-! ## Sample states -/

/-- A document whose elements are squares of side `side`, without classes,
attributes or children, at the origin of the viewport. -/
def DOM.plain {K : Type} [Zero K] (side : K) : DOM K :=
  { classList := fun _ => []
    rippleTriggerFor := fun _ => none
    rippleContainerClass := fun _ => none
    disabled := fun _ => false
    clientWidth := fun _ => side
    clientHeight := fun _ => side
    boundingX := fun _ => 0
    boundingY := fun _ => 0
    children := fun _ => []
    borderRadius := fun _ => "0px"
    querySelectorAll := fun _ => .ok []
    querySelector := fun _ _ => .ok none }

/-- The engine `new RippleEffect()` builds. -/
def RippleEffect.fresh {K : Type} : RippleEffect K :=
  { options := defaultOptions, touchEnd := false, touchDelay := .undefined, activeRipples := [] }

/-- The registries once the file is loaded: its last statement is
`Ripple.attach('.ripple-effect')`. -/
def Ripple.loaded : Ripple :=
  { triggerClasses := [("ripple-effect", ⟨[]⟩)], triggerElements := [] }

/-- A registry with two class overrides and two groups. -/
def Ripple.sample : Ripple :=
  { triggerClasses := [("foo", ⟨[]⟩), ("bar", ⟨[("centered", .bool true)]⟩)]
    triggerElements :=
      [("AAAAAAAAAAAAAAAA", ⟨[], [1, 2]⟩),
       ("BBBBBBBBBBBBBBBB", ⟨[("duration", .num 500)], [3]⟩)] }

/-- A document in which the element `1` has the class `ripple-effect`, the
element `2` has the attribute `data-ripple-trigger-for="t"`, and the element
`3` is the one element with `data-ripple-target="t"`. -/
def DOM.sample : DOM ℚ :=
  { DOM.plain 40 with
    classList := fun el => if el = 1 then ["ripple-effect"] else []
    rippleTriggerFor := fun el => if el = 2 then some "t" else none
    querySelectorAll := fun selector =>
      if selector = "[data-ripple-target='t']" then .ok [3] else .ok [] }

/-! ## Lifecycle of a ripple -/

/-- JavaScript's `ToNumber`; `none` is `NaN`. A string of decimal digits is
its number and the empty string is `0`; the other numeric strings, and
arrays, are outside the model and read `NaN`. -/
def toNumber : JSVal → Option ℚ
  | .num q => some q
  | .bool b => some (if b then 1 else 0)
  | .null => some 0
  | .str s => if s = "" then some 0 else (digitsValue s.data).map (fun n => (n : ℚ))
  | _ => none

/-- The difference `a - b` of two JavaScript numbers. -/
def numSub (a b : Option ℚ) : Option ℚ :=
  match a, b with
  | some x, some y => some (x - y)
  | _, _ => none

/-- The sum `a + b` of two JavaScript numbers. -/
def numAdd (a b : Option ℚ) : Option ℚ :=
  match a, b with
  | some x, some y => some (x + y)
  | _, _ => none

/-- The truth value of a JavaScript number: neither `0` nor `NaN`. -/
def numTruthy : Option ℚ → Bool
  | some x => decide (x ≠ 0)
  | none => false

/-- What the lifecycle functions touch besides the closure of `showRipple`:
the engine, the ripple nodes (by reference) that are in the document, and
those whose `style.opacity` is `1`. -/
structure Stage (K : Type) where
  effect : RippleEffect K
  attached : List Nat
  visible : List Nat

/-- The argument of `sleep` in `removeRipple(ripple, delay)`: `none` when
`delay` is false and the function does not sleep. -/
def removeRippleSleep {K : Type} (E : RippleEffect K) (ripple : RippleNode K) (delay : Bool) :
    Option JSVal :=
  let options : JSObject JSVal :=
    match E.activeRipples.get ripple.rippleId with
    | some entry => entry.options
    | none => [("duration", .num 0)]
  if delay then some (prop options "duration") else none

/-- The `try` block of `removeRipple`, which the function reaches once its
sleep is over: `ripple.remove()` takes the node `ref` out of the document and
`delete` takes the entry out of `activeRipples`. -/
def removeRippleFinish {K : Type} (S : Stage K) (ref : Nat) (ripple : RippleNode K) : Stage K :=
  { S with
    attached := S.attached.filter (fun node => node != ref)
    effect := { S.effect with
      activeRipples := S.effect.activeRipples.delete ripple.rippleId } }

/-- How `hideRipple` goes on after its guard: it returned `false` because the
entry is gone, it does not sleep, or it sleeps `ms` milliseconds. -/
inductive HideOutcome where
  | absent
  | noSleep
  | sleep (ms : Option ℚ)
  deriving DecidableEq

/-- The function `hideRipple(target, ripple, eventType)` up to its sleep, at
the time `currentTime` of `Date.now()`. -/
def hideRippleSleep {K : Type} (E : RippleEffect K) (ripple : RippleNode K)
    (eventType : String) (currentTime : Nat) : HideOutcome :=
  match E.activeRipples.get ripple.rippleId with
  | none => .absent
  | some entry =>
    let createdTime : ℚ := ripple.rippleCreated
    let elapsed := numSub (some ((currentTime : ℚ) - createdTime)) (toNumber E.touchDelay)
    let timeModifier : ℚ := 0
    if numTruthy elapsed then
      let timeModifier :=
        if eventType ≠ "" ∧ (eventType = "touchmove" ∨ eventType = "mouseleave") then 150
        else timeModifier
      .sleep (numAdd (numSub (toNumber (prop entry.options "duration")) elapsed)
        (some timeModifier))
    else .noSleep

/-- The closure of one call of `showRipple`: its variables `touchEnd`,
`options` and `touchMoved`, whether `touchMove` and `touchEndRipple` are
listening, and the events `hideRippleParams` is listening to. -/
structure Closure where
  touchEnd : Bool
  options : JSObject JSVal
  touchMoved : Bool
  early : Bool
  late : List String

/-- A timer that `touchEndRipple` sets: the `setTimeout` that shows the node
after 10 ms, and the `sleep(options['duration'])` after which the node is
hidden and `removeRipple(ripple)` is called. -/
inductive Timer where
  | show (ms : JSVal)
  | hideAndRemove (ms : JSVal)

/-- The function `showRipple(target, ripple)` up to its sleep: the closure it
leaves, `none` where `this.activeRipples[...]` is `undefined` and the read of
`options` throws. -/
def showRippleStart {K : Type} (E : RippleEffect K) (ripple : RippleNode K) : Option Closure :=
  match E.activeRipples.get ripple.rippleId with
  | none => none
  | some entry =>
    some { touchEnd := false, options := entry.options, touchMoved := entry.touchMoved,
           early := true, late := [] }

/-- The listener `touchMove` of `showRipple`. -/
def touchMove (c : Closure) : Closure := { c with touchMoved := true }

/-- The listener `touchEndRipple(e)` of `showRipple` up to its sleep;
`onTarget` is the value of `e.composedPath().includes(target)`. The call
`removeRipple(ripple, false)` does not sleep. -/
def touchEndRipple {K : Type} (S : Stage K) (c : Closure) (ref : Nat) (ripple : RippleNode K)
    (onTarget : Bool) : Stage K × Closure × List Timer :=
  if !onTarget then (S, c, [])
  else if c.touchMoved then (removeRippleFinish S ref ripple, c, [])
  else
    (S, { c with touchEnd := true },
      [Timer.show (.num 10), Timer.hideAndRemove (prop c.options "duration")])

/-- The function `showRipple` from the end of its sleep on: the two early
listeners are removed, and the node is shown and the hide listeners are added
unless the touch ended or moved (`ripple.style.opacity !== 1` holds of every
node, the style being a string). -/
def showRippleResume {K : Type} (S : Stage K) (c : Closure) (ref : Nat) : Stage K × Closure :=
  if c.touchEnd = false ∧ c.touchMoved = false ∧ S.attached.contains ref then
    ({ S with visible := S.visible ++ [ref] },
     { c with early := false,
              late := ["touchmove", "touchend", "touchcancel", "mouseup", "mouseleave"] })
  else (S, { c with early := false, touchMoved := false })

/-- The listeners of a call of `showRipple` that hear the event `type`. -/
def Closure.hears (c : Closure) (type : String) : Bool :=
  (c.early && (type == "touchmove" || type == "touchend" || type == "touchcancel"))
    || c.late.contains type

/-- The listeners `hideRipple` removes where the entry is there: those of
`touchmove`, `touchend`, `mouseup` and `mouseleave`. -/
def hideRippleListeners (c : Closure) : Closure :=
  let removed := ["touchmove", "touchend", "mouseup", "mouseleave"]
  { c with late := c.late.filter (fun type => !removed.contains type) }

/-- The statement `ripple.style.opacity = null` of `hideRipple`, which the
function reaches once its sleep is over and which `removeRipple(ripple)`
follows. -/
def hideRippleFinish {K : Type} (S : Stage K) (ref : Nat) : Stage K :=
  { S with visible := S.visible.filter (fun node => node != ref) }

/-! ## The disabled checks, as the specification speaks of them -/

/-- One of the three conditions holds that make `passArguments` skip a
target: the option `disabled`, the class `ripple-disabled` on the trigger or
the target, the option `disabledAttribute` with a disabled trigger or
target. -/
def isDisabled {K : Type} (D : DOM K) (options : JSObject JSVal) (trigger target : Elem) :
    Bool :=
  truthy (prop options "disabled")
    || (D.classList trigger).contains "ripple-disabled"
    || (D.classList target).contains "ripple-disabled"
    || (truthy (prop options "disabledAttribute") && (D.disabled trigger || D.disabled target))

/-! ## Sequences of calls, as the specification speaks of them -/

/-- A call of the public registry functions, with the draws of `Math.random`
an attach makes. -/
inductive Call where
  | attach (elements options : JSVal) (rand : Nat → Fin 52)
  | detach (elements : JSVal)

/-- The registry after a call; a call that throws leaves it as it was (both
functions throw before they assign). -/
def Ripple.call (R : Ripple) : Call → Ripple
  | .attach elements options rand =>
    match Ripple.attach R elements options rand with
    | .ok R' => R'
    | .error _ => R
  | .detach elements =>
    match Ripple.detach R elements with
    | .ok result => result.1
    | .error _ => R

/-- The registry after a sequence of calls. -/
def Ripple.run (R : Ripple) (calls : List Call) : Ripple := calls.foldl Ripple.call R

/-- The elements an attach registers: the element itself, or the elements
of the flattened list. -/
def namedElements : JSVal → List Elem
  | .element e => [e]
  | .array xs => elementsOf (flat 16 xs)
  | _ => []

/-- No attach of the sequence names an element that is in a group when the
call is made. -/
def disciplined (R : Ripple) : List Call → Prop
  | [] => True
  | call :: rest =>
    (match call with
      | .attach elements _ _ =>
        ∀ e ∈ namedElements elements, ∀ entry ∈ R.triggerElements, e ∉ entry.2.elements
      | .detach _ => True) ∧
    disciplined (R.call call) rest

/-- The groups share no element: the keys are distinct and not empty, and
two groups that hold the same element have the same key. -/
def disjointGroups (o : JSObject ElementsTrigger) : Prop :=
  o.keys.Nodup ∧ (∀ a ∈ o, a.1 ≠ "") ∧
    ∀ a ∈ o, ∀ b ∈ o, ∀ e, e ∈ a.2.elements → e ∈ b.2.elements → a.1 = b.1

/-! ## More sample states -/

/-- A document in which the element `1`, of the class `ripple-effect`, has
the one child `9`, of the class `ripple-container`. -/
def DOM.withContainer : DOM ℚ :=
  { DOM.plain 40 with
    classList := fun el =>
      if el = 1 then ["ripple-effect"] else if el = 9 then ["ripple-container"] else []
    children := fun el => if el = 1 then [9] else []
    querySelector := fun el selector =>
      if el = 1 ∧ selector = ".ripple-container" then .ok (some 9) else .ok none }

/-- A document in which the element `1`, of the class `ripple-effect`, has
the attribute `data-ripple-container-class="inner"` and no descendant of the
class `inner`. -/
def DOM.missingContainer : DOM ℚ :=
  { DOM.plain 40 with
    classList := fun el => if el = 1 then ["ripple-effect"] else []
    rippleContainerClass := fun el => if el = 1 then some "inner" else none }

/-- The `mousedown` event of the left button at `(3, 4)` with the path
`path`. -/
def Event.mousedown (path : List EventTarget) : Event ℚ :=
  { type := "mousedown", button := some 0, composedPath := path,
    clientX := 3, clientY := 4, targetTouches := [] }

/-- The `touchstart` event of one touch at `(3, 4)` with the path `path`. -/
def Event.touchstart (path : List EventTarget) : Event ℚ :=
  { type := "touchstart", button := none, composedPath := path,
    clientX := 0, clientY := 0, targetTouches := [(3, 4)] }

/-- The engine after a `mousedown` on the element `1` of the sample
document at the time `1000`. -/
def RippleEffect.clicked : RippleEffect ℚ :=
  (passArguments id RippleEffect.fresh Ripple.loaded DOM.sample (fun _ _ => 0) (fun _ => 1000)
    (Event.mousedown [.element 1])).effect

/-- The engine after a `touchstart` on the element `1` of the sample
document at the time `1000`. -/
def RippleEffect.touched : RippleEffect ℚ :=
  (passArguments id RippleEffect.fresh Ripple.loaded DOM.sample (fun _ _ => 0) (fun _ => 1000)
    (Event.touchstart [.element 1])).effect
/-! ## Lemmas on objects -/

namespace JSObject

variable {α : Type}

theorem filter_insertNew (p : String → Bool) (k : String) (v : α) (hk : p k = false)
    (o : JSObject α) :
    (insertNew k v o).filter (fun e => p e.1) = o.filter (fun e => p e.1) := by
  induction o with
  | nil => simp [insertNew, hk]
  | cons e rest ih =>
    unfold insertNew
    split
    · simp [List.filter_cons, hk]
    · simp only [List.filter_cons, ih]

theorem filter_replace (p : String → Bool) (k : String) (v : α) (hk : p k = false)
    (o : JSObject α) :
    (o.map (fun e => if e.1 = k then (k, v) else e)).filter (fun e => p e.1)
      = o.filter (fun e => p e.1) := by
  induction o with
  | nil => rfl
  | cons e rest ih =>
    by_cases he : e.1 = k
    · simp [List.filter_cons, he, hk, ih]
    · simp [List.filter_cons, he, ih]

/-- Keys outside the kept ones are invisible to a filter on keys. -/
theorem filter_set (p : String → Bool) (k : String) (v : α) (hk : p k = false)
    (o : JSObject α) :
    (o.set k v).filter (fun e => p e.1) = o.filter (fun e => p e.1) := by
  unfold set
  split
  · exact filter_replace p k v hk o
  · split
    · rfl
    · exact filter_insertNew p k v hk o

theorem has_eq_false_iff (o : JSObject α) (k : String) :
    o.has k = false ↔ k ∉ o.keys := by
  simp [has, keys]
  constructor
  · intro h a ha; exact h _ _ ha rfl
  · intro h a b hab hk; subst hk; exact h b hab

theorem insertNew_of_not_index (k : String) (v : α) (hidx : arrayIndex k = none)
    (o : JSObject α) : insertNew k v o = o ++ [(k, v)] := by
  induction o with
  | nil => rfl
  | cons e rest ih =>
    simp [insertNew, comesBefore, hidx, ih]

/-- A new key that is no array index, and is not `__proto__`, is listed
last. -/
theorem set_fresh (o : JSObject α) (k : String) (v : α) (hk : k ∉ o.keys)
    (hidx : arrayIndex k = none) (hproto : k ≠ "__proto__") : o.set k v = o ++ [(k, v)] := by
  unfold set
  rw [(has_eq_false_iff o k).mpr hk]
  simpa [hproto] using insertNew_of_not_index k v hidx o

/-- The assignment to `__proto__` creates no property. -/
theorem set_proto (o : JSObject α) (v : α) (hk : "__proto__" ∉ o.keys) :
    o.set "__proto__" v = o := by
  unfold set
  rw [(has_eq_false_iff o _).mpr hk]
  simp

theorem map_replace_of_not_mem (o : JSObject α) (k : String) (v : α) (hk : k ∉ o.keys) :
    o.map (fun e => if e.1 = k then (k, v) else e) = o := by
  induction o with
  | nil => rfl
  | cons e rest ih =>
    simp only [keys, List.map_cons, List.mem_cons, not_or] at hk
    simp only [List.map_cons]
    rw [if_neg (fun h => hk.1 h.symm), ih hk.2]

/-- The assignment to the last key replaces its value in place. -/
theorem set_last (o : JSObject α) (k : String) (v w : α) (hk : k ∉ o.keys) :
    (o ++ [(k, v)]).set k w = o ++ [(k, w)] := by
  unfold set
  have : has (o ++ [(k, v)]) k = true := by simp [has]
  rw [this]
  simp [map_replace_of_not_mem o k w hk]

/-- The deletion of the last key. -/
theorem delete_last (o : JSObject α) (k : String) (v : α) (hk : k ∉ o.keys) :
    (o ++ [(k, v)]).delete k = o := by
  unfold delete
  simp only [List.filter_append, List.filter_cons, bne_self_eq_false, Bool.false_eq_true,
    if_false, List.filter_nil, List.append_nil, List.filter_eq_self]
  intro e he
  simp only [bne_iff_ne, ne_eq]
  intro h
  exact hk (h ▸ List.mem_map_of_mem Prod.fst he)

theorem get_cons (e : String × α) (o : JSObject α) (k : String) :
    get (e :: o) k = if e.1 = k then some e.2 else get o k := by
  by_cases h : e.1 = k <;> simp [get, List.find?_cons, h]

theorem get_insertNew (k k' : String) (v : α) (o : JSObject α) (hk : k ∉ o.keys) :
    get (insertNew k v o) k' = if k' = k then some v else get o k' := by
  induction o with
  | nil =>
    by_cases h : k' = k
    · simp [insertNew, get_cons, h]
    · simp [insertNew, get_cons, h, Ne.symm h, get]
  | cons e rest ih =>
    simp only [keys, List.map_cons, List.mem_cons, not_or] at hk
    unfold insertNew
    split
    · by_cases h : k' = k
      · simp [get_cons, h]
      · simp [get_cons, h, Ne.symm h]
    · rw [get_cons, get_cons, ih hk.2]
      by_cases he : e.1 = k'
      · have : k' ≠ k := fun h => hk.1 (h ▸ he.symm)
        simp [he, this]
      · simp [he]

theorem get_replace (k k' : String) (v : α) (o : JSObject α) :
    get (o.map (fun e => if e.1 = k then (k, v) else e)) k'
      = if k' = k then (if o.has k then some v else none) else get o k' := by
  induction o with
  | nil => by_cases h : k' = k <;> simp [get, has, h]
  | cons e rest ih =>
    rw [List.map_cons, get_cons, ih, get_cons]
    by_cases he : e.1 = k
    · by_cases h : k' = k
      · simp [he, h, has]
      · simp [he, h, Ne.symm h]
    · by_cases h : k' = k
      · subst h
        have hb : (e.1 == k') = false := by simpa using he
        have hhas : has (e :: rest) k' = has rest k' := by simp [has, hb]
        simp [he, hhas]
      · simp [he, h]

/-- Reading after the assignment `o[k] = v`, the key being a property of `o`
or not `__proto__`. -/
theorem get_set_of (o : JSObject α) (k k' : String) (v : α)
    (hk : o.has k = true ∨ k ≠ "__proto__") :
    get (o.set k v) k' = if k' = k then some v else get o k' := by
  unfold set
  by_cases hh : o.has k = true
  · rw [if_pos hh, get_replace, hh]; simp
  · rw [if_neg hh, if_neg (hk.resolve_left hh)]
    exact get_insertNew k k' v o ((has_eq_false_iff o k).mp (by simpa using hh))

/-- Reading after the assignment `o[k] = v`. -/
theorem get_set (o : JSObject α) (k k' : String) (v : α) (hk : k ≠ "__proto__") :
    get (o.set k v) k' = if k' = k then some v else get o k' :=
  get_set_of o k k' v (Or.inr hk)

/-- The assignment `o[k] = v` leaves the other keys as they read. -/
theorem get_set_ne (o : JSObject α) (k k' : String) (v : α) (h : k' ≠ k) :
    get (o.set k v) k' = get o k' := by
  by_cases hk : o.has k = true ∨ k ≠ "__proto__"
  · rw [get_set_of o k k' v hk, if_neg h]
  · have hh : ¬ o.has k = true := fun hh => hk (Or.inl hh)
    have hp : k = "__proto__" := by
      by_contra hp
      exact hk (Or.inr hp)
    unfold set
    rw [if_neg hh, if_pos hp]

theorem get_set_of_get (o : JSObject α) (k k' : String) (v : α) (h : get o k' = some v) :
    get (o.set k v) k' = some v := by
  by_cases hkk : k' = k
  · subst hkk
    have hh : o.has k' = true := by
      by_contra hh
      have hnot := (has_eq_false_iff o k').mp (by simpa using hh)
      have hnone : get o k' = none := by
        simp only [get, Option.map_eq_none', List.find?_eq_none]
        intro e he
        simp only [beq_iff_eq]
        exact fun hek => hnot (hek ▸ List.mem_map_of_mem Prod.fst he)
      rw [hnone] at h
      cases h
    rw [get_set_of o k' k' v (Or.inl hh), if_pos rfl]
  · rw [get_set_ne o k k' v hkk, h]

theorem get_foldl_set_of_get (f : String → String) (v : α) (k : String) (ks : List String)
    (o : JSObject α) (h : get o k = some v) :
    get (ks.foldl (fun tc s => tc.set (f s) v) o) k = some v := by
  induction ks generalizing o with
  | nil => exact h
  | cons s ks ih =>
    apply ih
    exact get_set_of_get o (f s) k v h

/-- After a run of assignments of one value, every assigned key other than
`__proto__` reads it. -/
theorem get_foldl_set_mem (f : String → String) (v : α) (ks : List String) (s : String)
    (hs : s ∈ ks) (hproto : f s ≠ "__proto__") (o : JSObject α) :
    get (ks.foldl (fun tc s => tc.set (f s) v) o) (f s) = some v := by
  induction ks generalizing o with
  | nil => cases hs
  | cons t ks ih =>
    rcases List.mem_cons.mp hs with h | h
    · subst h
      exact get_foldl_set_of_get f v _ ks _ (by rw [get_set _ _ _ _ hproto]; simp)
    · exact ih h _

/-- After a run of assignments, every other key reads what it read before. -/
theorem get_foldl_set_not_mem (f : String → String) (v : α) (ks : List String) (k : String)
    (hk : k ∉ ks.map f) (o : JSObject α) :
    get (ks.foldl (fun tc s => tc.set (f s) v) o) k = get o k := by
  induction ks generalizing o with
  | nil => rfl
  | cons t ks ih =>
    simp only [List.map_cons, List.mem_cons, not_or] at hk
    rw [List.foldl_cons, ih hk.2, get_set_ne _ _ _ _ hk.1]

theorem mem_set_of_has (o : JSObject α) (k : String) (v : α) (hk : o.has k = true)
    (e : String × α) (he : e ∈ o.set k v) : e = (k, v) ∨ (e ∈ o ∧ e.1 ≠ k) := by
  unfold set at he
  rw [if_pos hk, List.mem_map] at he
  obtain ⟨a, ha, rfl⟩ := he
  by_cases h : a.1 = k
  · left; simp [h]
  · right; simp [h, ha]

theorem mem_delete (o : JSObject α) (k : String) (e : String × α) (he : e ∈ o.delete k) :
    e ∈ o ∧ e.1 ≠ k := by
  unfold delete at he
  rw [List.mem_filter] at he
  exact ⟨he.1, by simpa using he.2⟩

theorem has_of_mem (o : JSObject α) (e : String × α) (he : e ∈ o) : o.has e.1 = true := by
  simp only [has, List.any_eq_true]
  exact ⟨e, he, by simp⟩

end JSObject

/-! ## Identifiers -/

theorem digitsValue_none_foldl (cs : List Char) :
    cs.foldl (fun acc c =>
      match acc, digitValue c with
      | some a, some d => some (10 * a + d)
      | _, _ => none) (none : Option Nat) = none := by
  induction cs with
  | nil => rfl
  | cons c cs ih => simpa [List.foldl_cons] using ih

theorem arrayIndex_of_head (c : Char) (rest : List Char) (hc : digitValue c = none) :
    arrayIndex ⟨c :: rest⟩ = none := by
  have h0 : c ≠ '0' := by
    rintro rfl
    exact absurd hc (by decide)
  have hd : digitsValue (c :: rest) = none := by
    simp only [digitsValue, List.foldl_cons, hc]
    exact digitsValue_none_foldl rest
  unfold arrayIndex
  split
  · rfl
  · rename_i h; simp at h; exact absurd h.1 h0
  · rename_i h; simp at h; exact absurd h.1 h0
  · rename_i cs h1 h2 h3
    simp only at hd
    rw [hd]

theorem charSet_letter (r : Fin 52) :
    ∃ c, (charSet.drop r.val).take 1 = [c] ∧ digitValue c = none := by
  have h : ∀ r : Fin 52,
      (match (charSet.drop r.val).take 1 with
        | [c] => decide (digitValue c = none)
        | _ => false) = true := by decide
  have hr := h r
  split at hr
  · rename_i c hc
    exact ⟨c, hc, by simpa using hr⟩
  · simp at hr

theorem genRandomID_data (rand : Nat → Fin 52) :
    ∃ c rest, genRandomID rand 16 = ⟨c :: rest⟩ ∧ digitValue c = none := by
  obtain ⟨c, hc, hd⟩ := charSet_letter (rand 0)
  refine ⟨c, (List.range' 1 15).flatMap (fun i => (charSet.drop (rand i).val).take 1), ?_, hd⟩
  unfold genRandomID
  congr 1
  rw [show List.range 16 = 0 :: List.range' 1 15 from by decide]
  simp [List.flatMap_cons, hc]

/-- An identifier `genRandomID()` returns is no array index. -/
theorem arrayIndex_genRandomID (rand : Nat → Fin 52) :
    arrayIndex (genRandomID rand 16) = none := by
  obtain ⟨c, rest, h, hd⟩ := genRandomID_data rand
  rw [h]
  exact arrayIndex_of_head c rest hd

/-- An identifier `genRandomID()` returns is not `__proto__`: it starts with
a letter. -/
theorem genRandomID_ne_proto (rand : Nat → Fin 52) : genRandomID rand 16 ≠ "__proto__" := by
  have hletter : ∀ r : Fin 52, (charSet.drop r.val).take 1 ≠ ['_'] := by decide
  obtain ⟨c, rest, h, -⟩ := genRandomID_data rand
  obtain ⟨c', hc', -⟩ := charSet_letter (rand 0)
  have hhead : (genRandomID rand 16).data.take 1 = (charSet.drop (rand 0).val).take 1 := by
    unfold genRandomID
    rw [show List.range 16 = 0 :: List.range' 1 15 from by decide]
    simp [List.flatMap_cons, hc']
  intro h'
  rw [h'] at hhead
  exact hletter (rand 0) hhead.symm

/-- An identifier `genRandomID()` returns is not the empty string. -/
theorem genRandomID_ne_empty (rand : Nat → Fin 52) : genRandomID rand 16 ≠ "" := by
  obtain ⟨c, rest, h, -⟩ := genRandomID_data rand
  rw [h]
  intro h'
  have := congrArg String.data h'
  simp at this

/-! ## Class names: `attachClass` and `detachClass` -/

theorem foldlM_attachClass (options : JSVal) (cs : List String) (R : Ripple) :
    cs.foldlM (fun R _className => attachClass R (.str _className) options) R
      = .ok (cs.foldl
          (fun R c =>
            { R with triggerClasses := R.triggerClasses.set (stripDot c)
                                         ⟨spread (orDefault options (.object []))⟩ }) R) := by
  induction cs generalizing R with
  | nil => rfl
  | cons c cs ih =>
    simp only [List.foldlM_cons, List.foldl_cons, attachClass]
    exact ih _

theorem foldl_attach_triggerElements (v : ClassTrigger) (cs : List String) (R : Ripple) :
    (cs.foldl (fun R c => { R with triggerClasses := R.triggerClasses.set (stripDot c) v })
      R).triggerElements = R.triggerElements := by
  induction cs generalizing R with
  | nil => rfl
  | cons c cs ih => simp only [List.foldl_cons]; rw [ih]

theorem foldl_attach_filter (p : String → Bool) (v : ClassTrigger) (cs : List String)
    (hp : ∀ c ∈ cs, p (stripDot c) = false) (R : Ripple) :
    (cs.foldl (fun R c => { R with triggerClasses := R.triggerClasses.set (stripDot c) v })
      R).triggerClasses.filter (fun e => p e.1)
      = R.triggerClasses.filter (fun e => p e.1) := by
  induction cs generalizing R with
  | nil => rfl
  | cons c cs ih =>
    simp only [List.foldl_cons]
    rw [ih (fun d hd => hp d (List.mem_cons_of_mem _ hd))]
    exact JSObject.filter_set p _ _ (hp c (List.mem_cons_self _ _)) _

theorem foldl_detachClass (cs : List String) (R : Ripple) :
    cs.foldl detachClass R
      = { R with triggerClasses :=
          R.triggerClasses.filter (fun e => !(cs.map stripDot).contains e.1) } := by
  induction cs generalizing R with
  | nil => simp
  | cons c cs ih =>
    simp only [List.foldl_cons, ih, detachClass, JSObject.delete, List.filter_filter, List.map_cons]
    congr 1
    apply List.filter_congr
    intro e _
    simp [List.contains_cons, Bool.and_comm]
    tauto

theorem detach_str_eq (R : Ripple) (s : String) :
    Ripple.detach R (.str s) = .ok ((split s).foldl detachClass R, .undefined) := rfl

/-- C1 (amended). For every registry state and every non-empty string of
comma-separated class names (such as `.foo`) none of whose names is
registered, `Ripple.attach` of the string followed by `Ripple.detach` of the
same string gives back the registry as it was before the attach: both
`triggerClasses` and `triggerElements`. -/
theorem attach_detach_class_roundtrip (R : Ripple) (s : String) (options : JSVal)
    (rand : Nat → Fin 52) (hs : s ≠ "")
    (hnew : ∀ c ∈ split s, stripDot c ∉ R.triggerClasses.keys) :
    ∃ R', Ripple.attach R (.str s) options rand = .ok R' ∧
      Ripple.detach R' (.str s) = .ok (R, .undefined) := by
  have hatt : Ripple.attach R (.str s) options rand
      = (split s).foldlM (fun R _className => attachClass R (.str _className)
          (orDefault options (.object []))) R := by
    simp [Ripple.attach, truthy, isHTMLElement, hs]
  rw [foldlM_attachClass] at hatt
  refine ⟨_, hatt, ?_⟩
  simp only [Ripple.detach, foldl_detachClass]
  congr 2
  rw [foldl_attach_triggerElements]
  rw [foldl_attach_filter (fun k => !(List.map stripDot (split s)).contains k)]
  · cases R
    rename_i tc te
    congr 1
    simp only [List.filter_eq_self]
    intro e he
    simp
    intro c hc hce
    exact hnew c hc (hce ▸ List.mem_map_of_mem Prod.fst he)
  · intro c hc
    simp
    exact ⟨c, hc, rfl⟩

/-- C1, at the loaded registry and the string `.foo,bar`. -/
theorem attach_detach_class_roundtrip_witness :
    ∃ R', Ripple.attach Ripple.loaded (.str ".foo,bar") .undefined (fun _ => 0) = .ok R' ∧
      Ripple.detach R' (.str ".foo,bar") = .ok (Ripple.loaded, .undefined) :=
  attach_detach_class_roundtrip Ripple.loaded ".foo,bar" .undefined (fun _ => 0) (by decide)
    (by decide)

/-- C1 as stated fails for a class name that is registered already: the
loaded registry holds `ripple-effect`, and after `attach('.ripple-effect')`
and `detach('.ripple-effect')` it holds nothing. -/
theorem attach_detach_registered_class :
    Ripple.attach Ripple.loaded (.str ".ripple-effect") (.object [("centered", .bool true)])
        (fun _ => 0)
        = .ok ⟨[("ripple-effect", ⟨[("centered", .bool true)]⟩)], []⟩ ∧
      Ripple.detach ⟨[("ripple-effect", ⟨[("centered", .bool true)]⟩)], []⟩
          (.str ".ripple-effect")
        = .ok (⟨[], []⟩, .undefined) ∧
      (⟨[], []⟩ : Ripple) ≠ Ripple.loaded :=
  ⟨rfl, rfl, fun h => by cases h⟩

/-! ## Elements: `attachElements` and `detachElement` -/

theorem orDefault_idem (v : JSVal) :
    orDefault (orDefault v (.object [])) (.object []) = orDefault v (.object []) := by
  cases v <;> rfl

theorem find_group_none (o : JSObject ElementsTrigger) (e : Elem)
    (h : ∀ entry ∈ o, e ∉ entry.2.elements) :
    o.find? (fun entry => includes entry.2.elements (.element e)) = none := by
  rw [List.find?_eq_none]
  intro entry hentry
  simpa [includes] using h entry hentry

/-- The by-element remover on an element of no group. -/
theorem detachElement_untracked (R : Ripple) (e : Elem)
    (h : ∀ entry ∈ R.triggerElements, e ∉ entry.2.elements) :
    detachElement R (.element e) = (R, .bool false) := by
  unfold detachElement
  rw [find_group_none _ e h]

theorem detach_element_eq (R : Ripple) (e : Elem) :
    Ripple.detach R (.element e) = .ok ((detachElement R (.element e)).1, .undefined) := rfl

theorem detach_array_eq (R : Ripple) (L : List JSVal) :
    Ripple.detach R (.array L)
      = .ok ((flat 1 L).foldl (fun R _element => (detachElement R _element).1) R,
          .undefined) := rfl

/-- The by-element remover on an element of the last group, which is in no
other group. -/
theorem detachElement_last (tc : JSObject ClassTrigger) (o : JSObject ElementsTrigger)
    (id : String) (group : ElementsTrigger) (e : Elem) (hid : id ∉ o.keys) (hne : id ≠ "")
    (ho : ∀ entry ∈ o, e ∉ entry.2.elements) (he : e ∈ group.elements) :
    detachElement ⟨tc, o ++ [(id, group)]⟩ (.element e)
      = (if (group.elements.filter (differs (.element e))).length = 0 then ⟨tc, o⟩
         else ⟨tc, o ++ [(id, { group with
                elements := group.elements.filter (differs (.element e)) })]⟩,
         .undefined) := by
  unfold detachElement
  have hfind : (o ++ [(id, group)]).find? (fun entry => includes entry.2.elements (.element e))
      = some (id, group) := by
    rw [List.find?_append, find_group_none o e ho]
    simp [includes, he]
  simp only [hfind, if_neg hne]
  rw [JSObject.set_last o id group _ hid]
  split
  · rw [JSObject.delete_last o id _ hid]
  · rfl

theorem filter_differs_pair (e1 e2 : Elem) (h : e1 ≠ e2) :
    [e1, e2].filter (differs (.element e1)) = [e2] ∧
      [e2].filter (differs (.element e2)) = [] := by
  simp [differs, List.filter_cons, h, Ne.symm h]

/-- C2 (amended). For every registry state, every two distinct elements `el1`,
`el2` that belong to no group and every identifier `genRandomID` draws that is
not yet a key of `triggerElements`: `Ripple.attach([el1, el2])` appends one
group with the elements `[el1, el2]` and changes nothing else; a following
`Ripple.detach(el1)` leaves that group with the elements `[el2]` and
everything else as it was; a following `Ripple.detach(el2)` removes the key,
which gives back the registry before the attach. -/
theorem attach_pair_detach_each (R : Ripple) (el1 el2 : Elem) (options : JSVal)
    (rand : Nat → Fin 52) (hne : el1 ≠ el2)
    (h1 : ∀ entry ∈ R.triggerElements, el1 ∉ entry.2.elements)
    (h2 : ∀ entry ∈ R.triggerElements, el2 ∉ entry.2.elements)
    (hfresh : genRandomID rand 16 ∉ R.triggerElements.keys) :
    Ripple.attach R (.array [.element el1, .element el2]) options rand
        = .ok ⟨R.triggerClasses, R.triggerElements ++
            [(genRandomID rand 16, ⟨spread (orDefault options (.object [])), [el1, el2]⟩)]⟩ ∧
      Ripple.detach ⟨R.triggerClasses, R.triggerElements ++
            [(genRandomID rand 16, ⟨spread (orDefault options (.object [])), [el1, el2]⟩)]⟩
          (.element el1)
        = .ok (⟨R.triggerClasses, R.triggerElements ++
            [(genRandomID rand 16, ⟨spread (orDefault options (.object [])), [el2]⟩)]⟩,
            .undefined) ∧
      Ripple.detach ⟨R.triggerClasses, R.triggerElements ++
            [(genRandomID rand 16, ⟨spread (orDefault options (.object [])), [el2]⟩)]⟩
          (.element el2)
        = .ok (R, .undefined) := by
  obtain ⟨hf1, hf2⟩ := filter_differs_pair el1 el2 hne
  refine ⟨?_, ?_, ?_⟩
  · have hflat : flat 16 [JSVal.element el1, JSVal.element el2]
        = [JSVal.element el1, JSVal.element el2] := rfl
    have hfold : List.foldlM (attachItem (orDefault options (.object []))) (R, [])
        [JSVal.element el1, JSVal.element el2] = .ok (R, [el1, el2]) := rfl
    simp only [Ripple.attach, truthy, isHTMLElement, Bool.not_true, Bool.false_eq_true,
      if_false, bind, Except.bind, hflat, hfold, attachElements, orDefault_idem, pure,
      Except.pure]
    simp [JSObject.set_fresh _ _ _ hfresh (arrayIndex_genRandomID rand)
        (genRandomID_ne_proto rand)]
  · rw [detach_element_eq, detachElement_last _ _ _ _ el1 hfresh (genRandomID_ne_empty rand) h1
      (by simp)]
    simp [hf1]
  · rw [detach_element_eq, detachElement_last _ _ _ _ el2 hfresh (genRandomID_ne_empty rand) h2
      (by simp)]
    simp [hf2]

/-- C2, at the loaded registry with the elements `1` and `2` and the
identifier `AAAAAAAAAAAAAAAA`. -/
theorem attach_pair_detach_each_witness :
    Ripple.attach Ripple.loaded (.array [.element 1, .element 2]) .undefined (fun _ => 0)
        = .ok ⟨Ripple.loaded.triggerClasses, [("AAAAAAAAAAAAAAAA", ⟨[], [1, 2]⟩)]⟩ ∧
      Ripple.detach ⟨Ripple.loaded.triggerClasses, [("AAAAAAAAAAAAAAAA", ⟨[], [1, 2]⟩)]⟩
          (.element 1)
        = .ok (⟨Ripple.loaded.triggerClasses, [("AAAAAAAAAAAAAAAA", ⟨[], [2]⟩)]⟩, .undefined) ∧
      Ripple.detach ⟨Ripple.loaded.triggerClasses, [("AAAAAAAAAAAAAAAA", ⟨[], [2]⟩)]⟩
          (.element 2)
        = .ok (Ripple.loaded, .undefined) :=
  attach_pair_detach_each Ripple.loaded 1 2 .undefined (fun _ => 0) (by decide)
    (by simp [Ripple.loaded]) (by simp [Ripple.loaded]) (by simp [Ripple.loaded, JSObject.keys])

/-- C2 as stated fails where the identifier `genRandomID` draws is already a
key: the group stored under it is replaced instead of a group being added, and
the two detaches leave the empty registry, not the one before the attach. -/
theorem attach_pair_colliding_id :
    Ripple.attach ⟨[], [("AAAAAAAAAAAAAAAA", ⟨[], [5]⟩)]⟩ (.array [.element 1, .element 2])
        .undefined (fun _ => 0)
        = .ok ⟨[], [("AAAAAAAAAAAAAAAA", ⟨[], [1, 2]⟩)]⟩ ∧
      Ripple.detach ⟨[], [("AAAAAAAAAAAAAAAA", ⟨[], [1, 2]⟩)]⟩ (.element 1)
        = .ok (⟨[], [("AAAAAAAAAAAAAAAA", ⟨[], [2]⟩)]⟩, .undefined) ∧
      Ripple.detach ⟨[], [("AAAAAAAAAAAAAAAA", ⟨[], [2]⟩)]⟩ (.element 2)
        = .ok (⟨[], []⟩, .undefined) ∧
      (⟨[], []⟩ : Ripple) ≠ ⟨[], [("AAAAAAAAAAAAAAAA", ⟨[], [5]⟩)]⟩ :=
  ⟨rfl, rfl, rfl, fun h => by cases h⟩

/-- C3 (amended). For every registry state and every element that is in no
group, `detachElement(element)` returns `false`, and the public
`Ripple.detach(element)` returns `undefined`; neither throws, and both leave
the registry as it was. -/
theorem detach_untracked_element (R : Ripple) (e : Elem)
    (h : ∀ entry ∈ R.triggerElements, e ∉ entry.2.elements) :
    detachElement R (.element e) = (R, .bool false) ∧
      Ripple.detach R (.element e) = .ok (R, .undefined) := by
  refine ⟨detachElement_untracked R e h, ?_⟩
  rw [detach_element_eq, detachElement_untracked R e h]

/-- C3, at a registry with the group `[1, 2]` and the element `3`. -/
theorem detach_untracked_element_witness :
    detachElement ⟨[], [("AAAAAAAAAAAAAAAA", ⟨[], [1, 2]⟩)]⟩ (.element 3)
        = (⟨[], [("AAAAAAAAAAAAAAAA", ⟨[], [1, 2]⟩)]⟩, .bool false) ∧
      Ripple.detach ⟨[], [("AAAAAAAAAAAAAAAA", ⟨[], [1, 2]⟩)]⟩ (.element 3)
        = .ok (⟨[], [("AAAAAAAAAAAAAAAA", ⟨[], [1, 2]⟩)]⟩, .undefined) :=
  detach_untracked_element ⟨[], [("AAAAAAAAAAAAAAAA", ⟨[], [1, 2]⟩)]⟩ 3 (by simp)

/-- C3 as stated fails: the public `Ripple.detach` of an element that is in no
group returns `undefined`, not `false`. -/
theorem detach_untracked_returns_undefined :
    Ripple.detach ⟨[], [("AAAAAAAAAAAAAAAA", ⟨[], [1, 2]⟩)]⟩ (.element 3)
        = .ok (⟨[], [("AAAAAAAAAAAAAAAA", ⟨[], [1, 2]⟩)]⟩, .undefined) ∧
      Ripple.detach ⟨[], [("AAAAAAAAAAAAAAAA", ⟨[], [1, 2]⟩)]⟩ (.element 3)
        ≠ .ok (⟨[], [("AAAAAAAAAAAAAAAA", ⟨[], [1, 2]⟩)]⟩, .bool false) :=
  ⟨rfl, fun h => by cases h⟩

/-! ## The input of `Ripple.attach` -/

/-- C4, the inputs at which the code departs from it: `Ripple.attach` throws
`ReferenceError` on `0`, `NaN`, `false` and the empty string, none of which is
`undefined` or `null`. -/
theorem attach_falsy_throws_ReferenceError (R : Ripple) (options : JSVal)
    (rand : Nat → Fin 52) :
    Ripple.attach R (.num 0) options rand = .error .ReferenceError ∧
      Ripple.attach R .nan options rand = .error .ReferenceError ∧
      Ripple.attach R (.bool false) options rand = .error .ReferenceError ∧
      Ripple.attach R (.str "") options rand = .error .ReferenceError :=
  ⟨rfl, rfl, rfl, rfl⟩

/-! ## Nested lists -/

theorem flat_zero (xs : List JSVal) : flat 0 xs = xs := rfl

theorem flat_succ_nil (d : Nat) : flat (d + 1) [] = [] := rfl

theorem flat_succ_cons (d : Nat) (x : JSVal) (xs : List JSVal) :
    flat (d + 1) (x :: xs)
      = (match x with
          | .array ys => flat d ys
          | v => [v]) ++ flat (d + 1) xs := by
  simp [flat, List.flatMap_cons]

theorem leavesList_of_depth_zero (xs : List JSVal) (h : depthList xs ≤ 0) :
    leavesList xs = xs := by
  induction xs with
  | nil => rfl
  | cons x xs ih =>
    simp only [depthList, Nat.le_zero, Nat.max_eq_zero_iff] at h
    rw [leavesList, ih (Nat.le_of_eq h.2)]
    cases x <;> simp_all [JSVal.leaves, JSVal.depth]

/-- The method `flat(d)` yields the leaves of a list nested to depth `d` at
most. -/
theorem flat_eq_leavesList (d : Nat) (xs : List JSVal) (h : depthList xs ≤ d) :
    flat d xs = leavesList xs := by
  induction d generalizing xs with
  | zero => rw [flat_zero, leavesList_of_depth_zero xs h]
  | succ d ihd =>
    induction xs with
    | nil => rfl
    | cons x xs ih =>
      simp only [depthList, max_le_iff] at h
      rw [flat_succ_cons, leavesList, ih h.2]
      congr 1
      cases x <;> simp only [JSVal.leaves]
      rename_i ys
      simp only [JSVal.depth, Nat.add_le_add_iff_right] at h
      exact ihd ys h.1

theorem foldlM_attachItem (options : JSVal) (items : List JSVal) (R : Ripple)
    (acc : List Elem) :
    items.foldlM (attachItem options) (R, acc)
      = .ok (⟨(strings items).foldl
                (fun tc s => tc.set (stripDot s) ⟨spread (orDefault options (.object []))⟩)
                R.triggerClasses,
              R.triggerElements⟩, acc ++ elementsOf items) := by
  induction items generalizing R acc with
  | nil => simp [strings, elementsOf, pure, Except.pure]
  | cons x xs ih =>
    cases x <;>
      simp only [List.foldlM_cons, attachItem, attachClass, bind, Except.bind, pure, Except.pure,
        ih, strings, elementsOf, List.filterMap_cons, List.foldl_cons, List.append_assoc,
        List.singleton_append]

/-- The key `__proto__` is created by no assignment. -/
theorem keys_set_proto {α : Type} (o : JSObject α) (k : String) (v : α)
    (h : "__proto__" ∉ o.keys) : "__proto__" ∉ (o.set k v).keys := by
  by_cases hk : k = "__proto__"
  · rw [hk, JSObject.set_proto o v h]
    exact h
  · intro hmem
    have hfilter := JSObject.filter_set (fun key => key == "__proto__") k v
      (by simpa using hk) o
    obtain ⟨e, he, hek⟩ := List.mem_map.mp hmem
    have hin : e ∈ (o.set k v).filter (fun e => e.1 == "__proto__") :=
      List.mem_filter.mpr ⟨he, by simpa using hek⟩
    rw [hfilter] at hin
    have hold := (List.mem_filter.mp hin).1
    exact h (hek ▸ List.mem_map_of_mem Prod.fst hold)

theorem keys_foldl_set_proto {α : Type} (f : String → String) (v : α) (ks : List String)
    (o : JSObject α) (h : "__proto__" ∉ o.keys) :
    "__proto__" ∉ (ks.foldl (fun tc s => tc.set (f s) v) o).keys := by
  induction ks generalizing o with
  | nil => exact h
  | cons s ks ih => exact ih _ (keys_set_proto o (f s) v h)

/-- C5 (amended). For every list whose sub-lists are nested at most 16 deep
below it, and every identifier `genRandomID` draws that is not yet a key of
`triggerElements`, `Ripple.attach(list, options)` returns, having assigned the
override to the name of every string leaf (its leading `.` stripped), in
order, and, when there is an element leaf, appended one group whose elements
are the element leaves from left to right (no group when there is none); every
string leaf whose name is not `__proto__` then reads the override, the name
`__proto__` is made no key of `triggerClasses`, and every other class name
and every other group is as before. -/
theorem attach_nested_list (R : Ripple) (xs : List JSVal) (options : JSVal)
    (rand : Nat → Fin 52) (hdepth : depthList xs ≤ 16)
    (hfresh : genRandomID rand 16 ∉ R.triggerElements.keys) :
    ∃ R', Ripple.attach R (.array xs) options rand = .ok R' ∧
      R'.triggerClasses = (strings (leavesList xs)).foldl
        (fun tc s => tc.set (stripDot s) ⟨spread (orDefault options (.object []))⟩)
        R.triggerClasses ∧
      R'.triggerElements =
        (if elementsOf (leavesList xs) = [] then R.triggerElements
         else R.triggerElements ++ [(genRandomID rand 16,
            ⟨spread (orDefault options (.object [])), elementsOf (leavesList xs)⟩)]) ∧
      (∀ s ∈ strings (leavesList xs), stripDot s ≠ "__proto__" →
        R'.triggerClasses.get (stripDot s)
          = some ⟨spread (orDefault options (.object []))⟩) ∧
      ("__proto__" ∉ R.triggerClasses.keys → "__proto__" ∉ R'.triggerClasses.keys) ∧
      (∀ k, k ∉ (strings (leavesList xs)).map stripDot →
        R'.triggerClasses.get k = R.triggerClasses.get k) := by
  have hatt : Ripple.attach R (.array xs) options rand
      = .ok ⟨(strings (leavesList xs)).foldl
          (fun tc s => tc.set (stripDot s) ⟨spread (orDefault options (.object []))⟩)
          R.triggerClasses,
        if elementsOf (leavesList xs) = [] then R.triggerElements
        else R.triggerElements ++ [(genRandomID rand 16,
            ⟨spread (orDefault options (.object [])), elementsOf (leavesList xs)⟩)]⟩ := by
    simp only [Ripple.attach, truthy, isHTMLElement, Bool.not_true, Bool.false_eq_true,
      if_false, bind, Except.bind, flat_eq_leavesList 16 xs hdepth, foldlM_attachItem,
      List.nil_append, attachElements, orDefault_idem, pure, Except.pure]
    by_cases he : elementsOf (leavesList xs) = []
    · simp [he]
    · have hpos : 0 < (elementsOf (leavesList xs)).length := List.length_pos.mpr he
      simp only [gt_iff_lt, hpos, if_true, if_neg he]
      rw [JSObject.set_fresh _ _ _ hfresh (arrayIndex_genRandomID rand)
        (genRandomID_ne_proto rand)]
  refine ⟨_, hatt, rfl, rfl, ?_, ?_, ?_⟩
  · intro s hs hproto
    exact JSObject.get_foldl_set_mem stripDot _ _ s hs hproto _
  · intro h
    exact keys_foldl_set_proto stripDot _ _ _ h
  · intro k hk
    exact JSObject.get_foldl_set_not_mem stripDot _ _ k hk _

/-- C5, at the loaded registry and the list `['.a', [1, ['b', 2]]]`. -/
theorem attach_nested_list_witness :
    ∃ R', Ripple.attach Ripple.loaded
        (.array [.str ".a", .array [.element 1, .array [.str "b", .element 2]]])
        (.object [("centered", .bool true)]) (fun _ => 0) = .ok R' ∧
      R'.triggerClasses.keys = ["ripple-effect", "a", "b"] ∧
      R'.triggerElements
        = [("AAAAAAAAAAAAAAAA", ⟨[("centered", .bool true)], [1, 2]⟩)] ∧
      R'.triggerClasses.get "a" = some ⟨[("centered", .bool true)]⟩ ∧
      R'.triggerClasses.get "b" = some ⟨[("centered", .bool true)]⟩ ∧
      R'.triggerClasses.get "ripple-effect" = some ⟨[]⟩ := by
  obtain ⟨R', hatt, hclasses, hgroups, hget, -, hrest⟩ :=
    attach_nested_list Ripple.loaded
      [.str ".a", .array [.element 1, .array [.str "b", .element 2]]]
      (.object [("centered", .bool true)]) (fun _ => 0) (by decide)
      (by simp [Ripple.loaded, JSObject.keys])
  refine ⟨R', hatt, ?_, ?_, ?_, ?_, ?_⟩
  · rw [hclasses]; rfl
  · rw [hgroups]; rfl
  · exact hget ".a" (by decide) (by decide)
  · exact hget "b" (by decide) (by decide)
  · rw [hrest "ripple-effect" (by decide)]; rfl

/-- C5 as stated fails past the depth `flat(16)` reaches: the string `foo`
inside eighteen nested lists is the one leaf of the list, and
`Ripple.attach` stores no override for it and leaves the registry as it
was; inside seventeen nested lists it gets its override. It fails as well
for the leaf `__proto__`, whose assignment makes no key of
`triggerClasses`. -/
theorem attach_deeply_nested_list_ignored :
    (nest 18 (.str "foo")).leaves = [.str "foo"] ∧
      Ripple.attach ⟨[], []⟩ (nest 18 (.str "foo")) .undefined (fun _ => 0) = .ok ⟨[], []⟩ ∧
      Ripple.attach ⟨[], []⟩ (nest 17 (.str "foo")) .undefined (fun _ => 0)
        = .ok ⟨[("foo", ⟨[]⟩)], []⟩ ∧
      Ripple.attach ⟨[], []⟩ (.array [.str "__proto__", .str "foo"]) .undefined (fun _ => 0)
        = .ok ⟨[("foo", ⟨[]⟩)], []⟩ :=
  ⟨rfl, rfl, rfl, rfl⟩

/-! ## The by-element remover on arbitrary registries -/

/-- What `detachElement` leaves: every group left has the key of a group that
was there and no element that group had not. -/
theorem detachElement_groups (R : Ripple) (v : JSVal) :
    (detachElement R v).1.triggerClasses = R.triggerClasses ∧
      ∀ entry' ∈ (detachElement R v).1.triggerElements,
        ∃ entry ∈ R.triggerElements, entry.1 = entry'.1 ∧
          ∀ x ∈ entry'.2.elements, x ∈ entry.2.elements := by
  unfold detachElement
  split
  · exact ⟨rfl, fun entry' h => ⟨entry', h, rfl, fun _ hx => hx⟩⟩
  · rename_i valueID group hfind
    have hmem := List.mem_of_find?_eq_some hfind
    have hhas := JSObject.has_of_mem _ _ hmem
    have key : ∀ entry' ∈ R.triggerElements.set valueID
          { group with elements := group.elements.filter (differs v) },
        ∃ entry ∈ R.triggerElements, entry.1 = entry'.1 ∧
          ∀ x ∈ entry'.2.elements, x ∈ entry.2.elements := by
      intro entry' h'
      rcases JSObject.mem_set_of_has _ _ _ hhas _ h' with h | h
      · subst h
        exact ⟨_, hmem, rfl, fun x hx => (List.mem_filter.mp hx).1⟩
      · exact ⟨entry', h.1, rfl, fun _ hx => hx⟩
    split
    · exact ⟨rfl, fun entry' h => ⟨entry', h, rfl, fun _ hx => hx⟩⟩
    · dsimp only
      split
      · exact ⟨rfl, fun entry' h' => key entry' (JSObject.mem_delete _ _ _ h').1⟩
      · exact ⟨rfl, key⟩

/-- The by-element remover takes an element out of the groups, where the
groups that hold it have one key and that key is not empty. -/
theorem detachElement_removes (R : Ripple) (e : Elem)
    (hkeys : ∀ entry ∈ R.triggerElements, entry.1 ≠ "")
    (hone : ∀ a ∈ R.triggerElements, ∀ b ∈ R.triggerElements,
      e ∈ a.2.elements → e ∈ b.2.elements → a.1 = b.1) :
    ∀ entry' ∈ (detachElement R (.element e)).1.triggerElements, e ∉ entry'.2.elements := by
  unfold detachElement
  split
  · rename_i hfind
    intro entry' h'
    have := List.find?_eq_none.mp hfind entry' h'
    simpa [includes] using this
  · rename_i valueID group hfind
    have hmem := List.mem_of_find?_eq_some hfind
    have hin : e ∈ group.elements := by
      have := List.find?_some hfind
      simpa [includes] using this
    have hhas := JSObject.has_of_mem _ _ hmem
    rw [if_neg (hkeys _ hmem)]
    have key : ∀ entry' ∈ R.triggerElements.set valueID
          { group with elements := group.elements.filter (differs (.element e)) },
        e ∉ entry'.2.elements := by
      intro entry' h'
      rcases JSObject.mem_set_of_has _ _ _ hhas _ h' with h | h
      · subst h
        intro hx
        have := (List.mem_filter.mp hx).2
        simp [differs] at this
      · intro hx
        exact h.2 (hone entry' h.1 _ hmem hx hin)
    dsimp only
    split
    · exact fun entry' h' => key entry' (JSObject.mem_delete _ _ _ h').1
    · exact key

theorem foldl_detachElement_groups (items : List JSVal) (R : Ripple) :
    (items.foldl (fun R _element => (detachElement R _element).1) R).triggerClasses
        = R.triggerClasses ∧
      ∀ entry' ∈ (items.foldl (fun R _element => (detachElement R _element).1) R).triggerElements,
        ∃ entry ∈ R.triggerElements, entry.1 = entry'.1 ∧
          ∀ x ∈ entry'.2.elements, x ∈ entry.2.elements := by
  induction items generalizing R with
  | nil => exact ⟨rfl, fun entry' h => ⟨entry', h, rfl, fun _ hx => hx⟩⟩
  | cons v rest ih =>
    obtain ⟨hc, hg⟩ := ih (detachElement R v).1
    obtain ⟨hc1, hg1⟩ := detachElement_groups R v
    refine ⟨hc.trans hc1, fun entry' h' => ?_⟩
    obtain ⟨mid, hmid, hk, hsub⟩ := hg entry' h'
    obtain ⟨entry, hentry, hk1, hsub1⟩ := hg1 mid hmid
    exact ⟨entry, hentry, hk1.trans hk, fun x hx => hsub1 x (hsub x hx)⟩

theorem foldl_detachElement_removes (items : List JSVal) (R : Ripple)
    (hkeys : ∀ entry ∈ R.triggerElements, entry.1 ≠ "")
    (hone : ∀ e, JSVal.element e ∈ items → ∀ a ∈ R.triggerElements, ∀ b ∈ R.triggerElements,
      e ∈ a.2.elements → e ∈ b.2.elements → a.1 = b.1) :
    ∀ e, JSVal.element e ∈ items →
      ∀ entry' ∈ (items.foldl (fun R _element => (detachElement R _element).1) R).triggerElements,
        e ∉ entry'.2.elements := by
  induction items generalizing R with
  | nil => intro e he; cases he
  | cons v rest ih =>
    obtain ⟨-, hg1⟩ := detachElement_groups R v
    have hkeys1 : ∀ entry ∈ (detachElement R v).1.triggerElements, entry.1 ≠ "" := by
      intro entry' h'
      obtain ⟨entry, hentry, hk, -⟩ := hg1 entry' h'
      exact hk ▸ hkeys entry hentry
    have hone1 : ∀ e, JSVal.element e ∈ rest →
        ∀ a ∈ (detachElement R v).1.triggerElements,
        ∀ b ∈ (detachElement R v).1.triggerElements,
        e ∈ a.2.elements → e ∈ b.2.elements → a.1 = b.1 := by
      intro e he a ha b hb hea heb
      obtain ⟨a0, ha0, hka, hsa⟩ := hg1 a ha
      obtain ⟨b0, hb0, hkb, hsb⟩ := hg1 b hb
      rw [← hka, ← hkb]
      exact hone e (List.mem_cons_of_mem _ he) a0 ha0 b0 hb0 (hsa e hea) (hsb e heb)
    intro e he entry' h'
    rw [List.foldl_cons] at h'
    rcases List.mem_cons.mp he with h | h
    · subst h
      obtain ⟨mid, hmid, -, hsub⟩ :=
        (foldl_detachElement_groups rest (detachElement R (.element e)).1).2 entry' h'
      intro hx
      exact detachElement_removes R e hkeys (hone e (List.mem_cons_self _ _)) mid hmid
        (hsub e hx)
    · exact ih _ hkeys1 hone1 e h entry' h'

/-- C6 (amended). `Ripple.detach` hands every name of a comma-separated
string to the by-class remover, after which none of them has an override; and
it hands every item of a list, flattened by one level, to the by-element
remover, strings included, so that the class overrides are as before. Where
every group key is non-empty and the groups that hold an element named in the
list (at its top level or in a list directly inside it) have one key,
afterwards no group holds that element. -/
theorem detach_shapes (R : Ripple) (s : String) (L : List JSVal)
    (hkeys : ∀ entry ∈ R.triggerElements, entry.1 ≠ "")
    (hone : ∀ e, JSVal.element e ∈ flat 1 L →
      ∀ a ∈ R.triggerElements, ∀ b ∈ R.triggerElements,
        e ∈ a.2.elements → e ∈ b.2.elements → a.1 = b.1) :
    (∃ R', Ripple.detach R (.str s) = .ok (R', .undefined) ∧
        R' = (split s).foldl detachClass R ∧
        R'.triggerElements = R.triggerElements ∧
        ∀ c ∈ split s, stripDot c ∉ R'.triggerClasses.keys) ∧
      ∃ R', Ripple.detach R (.array L) = .ok (R', .undefined) ∧
        R' = (flat 1 L).foldl (fun R _element => (detachElement R _element).1) R ∧
        R'.triggerClasses = R.triggerClasses ∧
        ∀ e, JSVal.element e ∈ flat 1 L →
          ∀ entry ∈ R'.triggerElements, e ∉ entry.2.elements := by
  refine ⟨⟨_, detach_str_eq R s, rfl, ?_, ?_⟩, ⟨_, detach_array_eq R L, rfl, ?_, ?_⟩⟩
  · rw [foldl_detachClass]
  · intro c hc
    rw [foldl_detachClass]
    simp only [JSObject.keys, List.mem_map, List.mem_filter, not_exists, not_and]
    rintro ⟨k, t⟩ ⟨-, hk⟩ rfl
    simp only [Bool.not_eq_true', List.contains_eq_any_beq, List.any_eq_false, List.mem_map,
      forall_exists_index, and_imp] at hk
    exact absurd (hk _ c hc rfl) (by simp)
  · exact (foldl_detachElement_groups _ R).1
  · exact foldl_detachElement_removes _ R hkeys hone

/-- C6, at the sample registry: `.foo` as a string, and the list
`[1, [3], 'bar']`. -/
theorem detach_shapes_witness :
    (∃ R', Ripple.detach Ripple.sample (.str ".foo") = .ok (R', .undefined) ∧
        R'.triggerClasses.keys = ["bar"]) ∧
      ∃ R', Ripple.detach Ripple.sample (.array [.element 1, .array [.element 3], .str "bar"])
          = .ok (R', .undefined) ∧
        R'.triggerClasses = Ripple.sample.triggerClasses ∧
        ∀ entry ∈ R'.triggerElements, 1 ∉ entry.2.elements ∧ 3 ∉ entry.2.elements := by
  obtain ⟨⟨R1, h1, hR1, -, -⟩, ⟨R2, h2, -, hcl, hg⟩⟩ :=
    detach_shapes Ripple.sample ".foo" [.element 1, .array [.element 3], .str "bar"]
      (by simp [Ripple.sample])
      (by
        intro e he a ha b hb hea heb
        have he' : e = 1 ∨ e = 3 := by
          have hflat : flat 1 [JSVal.element 1, .array [.element 3], .str "bar"]
              = [JSVal.element 1, .element 3, .str "bar"] := rfl
          rw [hflat] at he
          simpa using he
        simp only [Ripple.sample, List.mem_cons, List.mem_singleton, List.not_mem_nil,
          or_false] at ha hb
        rcases ha with rfl | rfl <;> rcases hb with rfl | rfl <;> rcases he' with rfl | rfl <;>
          simp_all)
  refine ⟨⟨R1, h1, ?_⟩, ⟨R2, h2, hcl, fun entry hentry => ⟨?_, ?_⟩⟩⟩
  · rw [hR1]; rfl
  · exact hg 1 (List.mem_cons_self _ _) entry hentry
  · exact hg 3 (List.mem_cons_of_mem _ (List.mem_cons_self _ _)) entry hentry

/-- C6 as stated fails for a list that holds a class name, or an element
inside two nested lists: `Ripple.detach(['foo', [[1]]])` leaves the registry as
it was, with the override of `foo` and with `1` in its group. -/
theorem detach_list_keeps_class_and_nested :
    Ripple.detach ⟨[("foo", ⟨[]⟩)], [("AAAAAAAAAAAAAAAA", ⟨[], [1]⟩)]⟩
        (.array [.str "foo", .array [.array [.element 1]]])
      = .ok (⟨[("foo", ⟨[]⟩)], [("AAAAAAAAAAAAAAAA", ⟨[], [1]⟩)]⟩, .undefined) ∧
    JSObject.has ([("foo", ⟨[]⟩)] : JSObject ClassTrigger) "foo" = true ∧
    matchesGroup ⟨[("foo", ⟨[]⟩)], [("AAAAAAAAAAAAAAAA", ⟨[], [1]⟩)]⟩ 1 = true :=
  ⟨rfl, rfl, rfl⟩

/-! ## Geometry of `addRipple` -/

section Geometry

variable {K : Type} [LinearOrderedField K]

theorem addRippleCorner_fst (w h x y : K) :
    (addRippleCorner w h x y).1 = if x ≤ w / 2 then w else 0 := by
  by_cases hx : x ≤ w / 2 <;> by_cases hy : y ≤ h / 2 <;>
    simp [addRippleCorner, hx, hy]

theorem addRippleCorner_snd (w h x y : K) :
    (addRippleCorner w h x y).2 = if y ≤ h / 2 then h else 0 := by
  by_cases hx : x ≤ w / 2 <;> by_cases hy : y ≤ h / 2 <;>
    simp [addRippleCorner, hx, hy]

/-- Along one axis the selected coordinate is at least as far from the origin
as every coordinate between `0` and the extent. -/
theorem axis_farthest (w x p : K) (hp : 0 ≤ p) (hpw : p ≤ w) :
    (p - x) * (p - x)
      ≤ ((if x ≤ w / 2 then w else 0) - x) * ((if x ≤ w / 2 then w else 0) - x) := by
  split
  · rename_i hx
    have h2 : 2 * x ≤ w := by linarith [(le_div_iff₀ (by norm_num : (0:K) < 2)).mp hx]
    nlinarith [mul_nonneg (sub_nonneg.mpr hpw) (by linarith : (0:K) ≤ w - x + (p - x))]
  · rename_i hx
    have h2 : w < 2 * x := by
      have := not_le.mp hx
      linarith [(div_lt_iff₀ (by norm_num : (0:K) < 2)).mp this]
    nlinarith [mul_nonneg hp (by linarith : (0:K) ≤ x + (x - p))]

theorem sqDist_le_corner (w h x y px py : K) (hpx : 0 ≤ px) (hpxw : px ≤ w)
    (hpy : 0 ≤ py) (hpyh : py ≤ h) :
    (px - x) * (px - x) + (py - y) * (py - y)
      ≤ ((addRippleCorner w h x y).1 - x) * ((addRippleCorner w h x y).1 - x)
        + ((addRippleCorner w h x y).2 - y) * ((addRippleCorner w h x y).2 - y) := by
  rw [addRippleCorner_fst, addRippleCorner_snd]
  exact add_le_add (axis_farthest w x px hpx hpxw) (axis_farthest h y py hpy hpyh)

theorem addRipple_ok (sqrt : K → K) (D : DOM K) (E : RippleEffect K) (rand : Nat → Fin 52)
    (now : Nat) (x y : K) (target : Elem) (container : Container)
    (options : Option (JSObject JSVal)) :
    ∃ E' node, addRipple sqrt D E rand now (.num x) (.num y) target (some container) options
        = .ok (E', node) ∧
      node.width = addRippleSize sqrt (D.clientWidth target) (D.clientHeight target) x y * 2 ∧
      node.height = addRippleSize sqrt (D.clientWidth target) (D.clientHeight target) x y * 2 :=
  ⟨_, _, rfl, rfl, rfl⟩

/-- C7. For every origin `(x, y)` and every target of width `w ≥ 0` and height
`h ≥ 0`, the corner `addRipple` selects is one of the four corners of the
target; its squared distance from the origin is at least that of each of the
four corners, and so is the distance `Math.sqrt` gives for it, `Math.sqrt`
being monotone; and the width and the height of the node `addRipple` creates
are twice `Math.sqrt` of that squared distance. -/
theorem addRipple_farthest_corner (sqrt : K → K) (D : DOM K)
    (E : RippleEffect K) (rand : Nat → Fin 52) (now : Nat) (target : Elem)
    (container : Container) (options : Option (JSObject JSVal)) (x y : K)
    (hw : 0 ≤ D.clientWidth target) (hh : 0 ≤ D.clientHeight target) :
    addRippleCorner (D.clientWidth target) (D.clientHeight target) x y
        ∈ [(0, 0), (D.clientWidth target, 0), (0, D.clientHeight target),
            (D.clientWidth target, D.clientHeight target)] ∧
      (∀ p ∈ [(0, 0), (D.clientWidth target, 0), (0, D.clientHeight target),
            (D.clientWidth target, D.clientHeight target)],
        (p.1 - x) * (p.1 - x) + (p.2 - y) * (p.2 - y)
          ≤ ((addRippleCorner (D.clientWidth target) (D.clientHeight target) x y).1 - x)
              * ((addRippleCorner (D.clientWidth target) (D.clientHeight target) x y).1 - x)
            + ((addRippleCorner (D.clientWidth target) (D.clientHeight target) x y).2 - y)
              * ((addRippleCorner (D.clientWidth target) (D.clientHeight target) x y).2 - y)) ∧
      (Monotone sqrt →
        ∀ p ∈ [(0, 0), (D.clientWidth target, 0), (0, D.clientHeight target),
            (D.clientWidth target, D.clientHeight target)],
          sqrt ((p.1 - x) * (p.1 - x) + (p.2 - y) * (p.2 - y))
            ≤ sqrt
              (((addRippleCorner (D.clientWidth target) (D.clientHeight target) x y).1 - x)
                * ((addRippleCorner (D.clientWidth target) (D.clientHeight target) x y).1 - x)
              + ((addRippleCorner (D.clientWidth target) (D.clientHeight target) x y).2 - y)
                * ((addRippleCorner (D.clientWidth target) (D.clientHeight target) x y).2
                    - y))) ∧
      ∃ E' node, addRipple sqrt D E rand now (.num x) (.num y) target (some container) options
          = .ok (E', node) ∧
        node.width = 2 * sqrt
            (((addRippleCorner (D.clientWidth target) (D.clientHeight target) x y).1 - x)
              * ((addRippleCorner (D.clientWidth target) (D.clientHeight target) x y).1 - x)
            + ((addRippleCorner (D.clientWidth target) (D.clientHeight target) x y).2 - y)
              * ((addRippleCorner (D.clientWidth target) (D.clientHeight target) x y).2 - y)) ∧
        node.height = 2 * sqrt
            (((addRippleCorner (D.clientWidth target) (D.clientHeight target) x y).1 - x)
              * ((addRippleCorner (D.clientWidth target) (D.clientHeight target) x y).1 - x)
            + ((addRippleCorner (D.clientWidth target) (D.clientHeight target) x y).2 - y)
              * ((addRippleCorner (D.clientWidth target) (D.clientHeight target) x y).2
                  - y)) := by
  have hcorner : ∀ p ∈ [(0, 0), (D.clientWidth target, 0), (0, D.clientHeight target),
        (D.clientWidth target, D.clientHeight target)],
      (p.1 - x) * (p.1 - x) + (p.2 - y) * (p.2 - y)
        ≤ ((addRippleCorner (D.clientWidth target) (D.clientHeight target) x y).1 - x)
            * ((addRippleCorner (D.clientWidth target) (D.clientHeight target) x y).1 - x)
          + ((addRippleCorner (D.clientWidth target) (D.clientHeight target) x y).2 - y)
            * ((addRippleCorner (D.clientWidth target) (D.clientHeight target) x y).2 - y) := by
    intro p hp
    have hin : ∀ px py : K, px = 0 ∨ px = D.clientWidth target →
        py = 0 ∨ py = D.clientHeight target →
        (px - x) * (px - x) + (py - y) * (py - y)
          ≤ ((addRippleCorner (D.clientWidth target) (D.clientHeight target) x y).1 - x)
              * ((addRippleCorner (D.clientWidth target) (D.clientHeight target) x y).1 - x)
            + ((addRippleCorner (D.clientWidth target) (D.clientHeight target) x y).2 - y)
              * ((addRippleCorner (D.clientWidth target) (D.clientHeight target) x y).2 - y) := by
      intro px py hpx hpy
      apply sqDist_le_corner
      · rcases hpx with h | h <;> simp [h, hw]
      · rcases hpx with h | h <;> simp [h, hw]
      · rcases hpy with h | h <;> simp [h, hh]
      · rcases hpy with h | h <;> simp [h, hh]
    simp only [List.mem_cons, List.mem_singleton, List.not_mem_nil, or_false] at hp
    rcases hp with h | h | h | h <;> subst h
    · exact hin _ _ (Or.inl rfl) (Or.inl rfl)
    · exact hin _ _ (Or.inr rfl) (Or.inl rfl)
    · exact hin _ _ (Or.inl rfl) (Or.inr rfl)
    · exact hin _ _ (Or.inr rfl) (Or.inr rfl)
  refine ⟨?_, hcorner, fun hsqrt p hp => hsqrt (hcorner p hp), ?_⟩
  · have h1 := addRippleCorner_fst (D.clientWidth target) (D.clientHeight target) x y
    have h2 := addRippleCorner_snd (D.clientWidth target) (D.clientHeight target) x y
    rw [show addRippleCorner (D.clientWidth target) (D.clientHeight target) x y
        = ((addRippleCorner (D.clientWidth target) (D.clientHeight target) x y).1,
           (addRippleCorner (D.clientWidth target) (D.clientHeight target) x y).2) from rfl,
      h1, h2]
    split <;> split <;> simp
  · obtain ⟨E', node, hE, hwd, hht⟩ := addRipple_ok sqrt D E rand now x y target container options
    exact ⟨E', node, hE, by rw [hwd, mul_comm]; rfl, by rw [hht, mul_comm]; rfl⟩

/-- C7, at the 40 by 40 target: with the origin `(0, 0)` the corner is
`(40, 40)` and the size is `2 * sqrt 3200`; with the origin `(30, 5)` the
corner is `(0, 40)` and the size is `2 * sqrt 2125`. -/
theorem addRipple_farthest_corner_witness :
    (addRippleCorner (40 : ℝ) 40 0 0 = (40, 40) ∧
      ∃ E' node, addRipple Real.sqrt (DOM.plain (40 : ℝ)) RippleEffect.fresh (fun _ => 0) 0
          (.num 0) (.num 0) 0 (some (.existing 0)) none = .ok (E', node) ∧
        node.width = 2 * Real.sqrt 3200 ∧ node.height = 2 * Real.sqrt 3200) ∧
      (addRippleCorner (40 : ℝ) 40 30 5 = (0, 40) ∧
        ((40 : ℝ) - 30) * (40 - 30) + (40 - 5) * (40 - 5) ≤ 2125 ∧
        ∃ E' node, addRipple Real.sqrt (DOM.plain (40 : ℝ)) RippleEffect.fresh (fun _ => 0) 0
            (.num 30) (.num 5) 0 (some (.existing 0)) none = .ok (E', node) ∧
          node.width = 2 * Real.sqrt 2125 ∧ node.height = 2 * Real.sqrt 2125) := by
  have hc : addRippleCorner (40 : ℝ) 40 0 0 = (40, 40) := by
    have h20 : (0 : ℝ) ≤ 40 / 2 := by norm_num
    simp [addRippleCorner, h20]
  have hc' : addRippleCorner (40 : ℝ) 40 30 5 = (0, 40) := by
    have h1 : ¬ ((30 : ℝ) ≤ 40 / 2) := by norm_num
    have h2 : (5 : ℝ) ≤ 40 / 2 := by norm_num
    have h3 : (40 : ℝ) / 2 < 30 := by norm_num
    simp [addRippleCorner, h1, h2, h3]
  obtain ⟨-, -, -, E', node, hE, hwd, hht⟩ :=
    addRipple_farthest_corner Real.sqrt
      (DOM.plain (40 : ℝ)) RippleEffect.fresh (fun _ => 0) 0 0 (.existing 0) none 0 0
      (by simp [DOM.plain]) (by simp [DOM.plain])
  obtain ⟨-, hfar, -, E'', node', hE', hwd', hht'⟩ :=
    addRipple_farthest_corner Real.sqrt
      (DOM.plain (40 : ℝ)) RippleEffect.fresh (fun _ => 0) 0 0 (.existing 0) none 30 5
      (by simp [DOM.plain]) (by simp [DOM.plain])
  refine ⟨⟨hc, E', node, hE, ?_, ?_⟩, hc', ?_, E'', node', hE', ?_, ?_⟩
  · rw [hwd]; simp only [DOM.plain, hc]; norm_num
  · rw [hht]; simp only [DOM.plain, hc]; norm_num
  · have := hfar ((40 : ℝ), (40 : ℝ)) (by simp [DOM.plain])
    simp only [DOM.plain, hc'] at this
    norm_num at this ⊢
  · rw [hwd']; simp only [DOM.plain, hc']; norm_num
  · rw [hht']; simp only [DOM.plain, hc']; norm_num

/-- C8 (amended). For coordinates on which the arithmetic of doubles is exact
(`pixel`: multiples of one half up to `2 ^ 24`) and a `Math.sqrt` that rounds
to the nearest double, the fully grown ripple covers the target up to that
rounding: for every origin `(x, y)`, inside the target or not, and every
point `(px, py)` of the target, the squared distance from the origin to the
point, times `(1 - 2 ^ -53) ^ 2`, is at most the square of `rippleSize`,
which is half the width of the node `addRipple` creates; and it is at most
that square itself where `Math.sqrt` is exact at the squared distance of the
corner. -/
theorem addRipple_covers_target (sqrt : K → K) (hsqrt : roundsToNearest sqrt)
    (D : DOM K) (E : RippleEffect K) (rand : Nat → Fin 52) (now : Nat) (target : Elem)
    (container : Container) (options : Option (JSObject JSVal)) (x y px py : K)
    (_hx : pixel x) (_hy : pixel y) (_hw : pixel (D.clientWidth target))
    (_hh : pixel (D.clientHeight target))
    (hpx : 0 ≤ px) (hpxw : px ≤ D.clientWidth target)
    (hpy : 0 ≤ py) (hpyh : py ≤ D.clientHeight target) :
    ∃ E' node, addRipple sqrt D E rand now (.num x) (.num y) target (some container) options
        = .ok (E', node) ∧
      node.width / 2 = addRippleSize sqrt (D.clientWidth target) (D.clientHeight target) x y ∧
      (1 - 1 / 2 ^ 53) ^ 2 * ((px - x) * (px - x) + (py - y) * (py - y))
        ≤ (node.width / 2) * (node.width / 2) ∧
      ((node.width / 2) * (node.width / 2)
          = ((addRippleCorner (D.clientWidth target) (D.clientHeight target) x y).1 - x)
              * ((addRippleCorner (D.clientWidth target) (D.clientHeight target) x y).1 - x)
            + ((addRippleCorner (D.clientWidth target) (D.clientHeight target) x y).2 - y)
              * ((addRippleCorner (D.clientWidth target) (D.clientHeight target) x y).2 - y) →
        (px - x) * (px - x) + (py - y) * (py - y) ≤ (node.width / 2) * (node.width / 2)) := by
  obtain ⟨E', node, hE, hwd, -⟩ := addRipple_ok sqrt D E rand now x y target container options
  have hhalf : node.width / 2
      = addRippleSize sqrt (D.clientWidth target) (D.clientHeight target) x y := by
    rw [hwd]; field_simp
  have hle := sqDist_le_corner (D.clientWidth target) (D.clientHeight target) x y px py
    hpx hpxw hpy hpyh
  refine ⟨E', node, hE, hhalf, ?_, ?_⟩
  · rw [hhalf]
    unfold addRippleSize getDistance
    have hS := (hsqrt _ (add_nonneg (mul_self_nonneg
      ((addRippleCorner (D.clientWidth target) (D.clientHeight target) x y).1 - x))
      (mul_self_nonneg
        ((addRippleCorner (D.clientWidth target) (D.clientHeight target) x y).2 - y)))).2.1
    exact le_trans (mul_le_mul_of_nonneg_left hle (sq_nonneg _)) hS
  · intro hexact
    rw [hexact]
    exact hle

/-- C8 (amended), at a 40 by 40 target with the origin `(0, 9)`, the point
`(40, 40)` and a `Math.sqrt` that rounds down by the unit roundoff. -/
theorem addRipple_covers_target_witness :
    roundsToNearest (fun q : ℝ => Real.sqrt q * (1 - 1 / 2 ^ 53)) ∧
      ∃ E' node, addRipple (fun q : ℝ => Real.sqrt q * (1 - 1 / 2 ^ 53)) (DOM.plain (40 : ℝ))
          RippleEffect.fresh (fun _ => 0) 0 (.num 0) (.num 9) 0 (some (.existing 0)) none
          = .ok (E', node) ∧
        (1 - 1 / 2 ^ 53) ^ 2 * (((40 : ℝ) - 0) * (40 - 0) + (40 - 9) * (40 - 9))
          ≤ (node.width / 2) * (node.width / 2) := by
  have hsqrt : roundsToNearest (fun q : ℝ => Real.sqrt q * (1 - 1 / 2 ^ 53)) := by
    intro q hq
    have he : (0 : ℝ) ≤ 1 - 1 / 2 ^ 53 := by norm_num
    have hmul : Real.sqrt q * (1 - 1 / 2 ^ 53) * (Real.sqrt q * (1 - 1 / 2 ^ 53))
        = (1 - 1 / 2 ^ 53) ^ 2 * q := by
      have := Real.mul_self_sqrt hq
      calc Real.sqrt q * (1 - 1 / 2 ^ 53) * (Real.sqrt q * (1 - 1 / 2 ^ 53))
          = (1 - 1 / 2 ^ 53) ^ 2 * (Real.sqrt q * Real.sqrt q) := by ring
        _ = (1 - 1 / 2 ^ 53) ^ 2 * q := by rw [this]
    refine ⟨mul_nonneg (Real.sqrt_nonneg q) he, ?_, ?_⟩
    · show _ ≤ Real.sqrt q * (1 - 1 / 2 ^ 53) * (Real.sqrt q * (1 - 1 / 2 ^ 53))
      rw [hmul]
    · show Real.sqrt q * (1 - 1 / 2 ^ 53) * (Real.sqrt q * (1 - 1 / 2 ^ 53)) ≤ _
      rw [hmul]
      apply mul_le_mul_of_nonneg_right _ hq
      norm_num
  obtain ⟨E', node, hE, -, hcover, -⟩ :=
    addRipple_covers_target (fun q : ℝ => Real.sqrt q * (1 - 1 / 2 ^ 53)) hsqrt
      (DOM.plain (40 : ℝ)) RippleEffect.fresh (fun _ => 0) 0 0 (.existing 0) none 0 9 40 40
      ⟨0, by norm_num, by norm_num⟩ ⟨18, by norm_num, by norm_num⟩
      ⟨80, by simp [DOM.plain]; norm_num, by norm_num⟩
      ⟨80, by simp [DOM.plain]; norm_num, by norm_num⟩
      (by norm_num) (by simp [DOM.plain]) (by norm_num) (by simp [DOM.plain])
  exact ⟨hsqrt, E', node, hE, hcover⟩

/-- C8 as stated fails by the rounding of `Math.sqrt`: on the 40 by 40 target
with the origin `(0, 9)` the corner is `(40, 40)`, at the squared distance
`2561`, and `Math.sqrt(2561)` is the double `50.60632371551998` (the nearest
one: the square root lies within half a unit in the last place, `2 ^ -48`, of
it), whose square is less than `2561`: the corner is outside the ripple. -/
theorem addRipple_misses_corner_by_rounding :
    (Math.sqrt2561 - 1 / 2 ^ 48) ^ 2 < 2561 ∧ (2561 : ℚ) < (Math.sqrt2561 + 1 / 2 ^ 48) ^ 2 ∧
      addRippleCorner (40 : ℚ) 40 0 9 = (40, 40) ∧
      ∃ E' node, addRipple (fun q : ℚ => if q = 2561 then Math.sqrt2561 else 0)
          (DOM.plain (40 : ℚ)) RippleEffect.fresh (fun _ => 0) 0 (.num 0) (.num 9) 0
          (some (.existing 0)) none = .ok (E', node) ∧
        node.width / 2 = Math.sqrt2561 ∧
        (node.width / 2) * (node.width / 2) < ((40 : ℚ) - 0) * (40 - 0) + (40 - 9) * (40 - 9) := by
  have hc : addRippleCorner (40 : ℚ) 40 0 9 = (40, 40) := by
    have h1 : (0 : ℚ) ≤ 40 / 2 := by norm_num
    have h2 : (9 : ℚ) ≤ 40 / 2 := by norm_num
    simp [addRippleCorner, h1, h2]
  have hsize : addRippleSize (fun q : ℚ => if q = 2561 then Math.sqrt2561 else 0) 40 40 0 9
      = Math.sqrt2561 := by
    simp only [addRippleSize, getDistance, hc]
    norm_num
  refine ⟨by norm_num [Math.sqrt2561], by norm_num [Math.sqrt2561], hc, _, _, rfl, ?_, ?_⟩
  · show addRippleSize _ 40 40 0 9 * 2 / 2 = _
    rw [hsize]
    norm_num
  · show addRippleSize _ 40 40 0 9 * 2 / 2 * (addRippleSize _ 40 40 0 9 * 2 / 2) < _
    rw [hsize]
    norm_num [Math.sqrt2561]

end Geometry

/-! ## Trigger resolution -/

section Resolution

variable {K : Type}

/-- The class loop leaves the override of the last key, in `Object.keys`
order, among the registered class names the element carries, or what it
started from. -/
theorem foldl_classStep (D : DOM K) (el : Elem) (cs : JSObject ClassTrigger) (r : Resolution) :
    cs.foldl (classStep D el) r
      = match (cs.filter (fun entry => (D.classList el).contains entry.1)).getLast? with
        | some entry => some { trigger := el, targets := [el], tempOptions := entry.2.ripple }
        | none => r := by
  induction cs generalizing r with
  | nil => rfl
  | cons c cs ih =>
    rw [List.foldl_cons, ih]
    by_cases hc : c.1 ∈ D.classList el
    · have hf : (c :: cs).filter (fun entry => (D.classList el).contains entry.1)
          = c :: cs.filter (fun entry => (D.classList el).contains entry.1) := by
        simp [List.filter_cons, hc]
      rw [hf, List.getLast?_cons]
      cases h : (cs.filter (fun entry => (D.classList el).contains entry.1)).getLast? <;>
        simp [classStep, hc]
    · have hf : (c :: cs).filter (fun entry => (D.classList el).contains entry.1)
          = cs.filter (fun entry => (D.classList el).contains entry.1) := by
        simp [List.filter_cons, hc]
      rw [hf]
      cases h : (cs.filter (fun entry => (D.classList el).contains entry.1)).getLast? <;>
        simp [classStep, hc]

theorem foldl_classStep_of_not_matchesClass (R : Ripple) (D : DOM K) (el : Elem)
    (h : matchesClass R D el = false) (r : Resolution) :
    R.triggerClasses.foldl (classStep D el) r = r := by
  rw [foldl_classStep]
  have : R.triggerClasses.filter (fun entry => (D.classList el).contains entry.1) = [] := by
    rw [List.filter_eq_nil_iff]
    intro entry hentry
    simp only [matchesClass, List.any_eq_false] at h
    exact h entry hentry
  rw [this]
  rfl

theorem groupStep_of_not_matchesGroup (R : Ripple) (el : Elem) (h : matchesGroup R el = false)
    (r : Resolution) : groupStep R el r = r := by
  unfold groupStep
  have : R.triggerElements.find? (fun entry => entry.2.elements.contains el) = none := by
    rw [List.find?_eq_none]
    intro entry hentry
    simp only [matchesGroup, List.any_eq_false] at h
    exact h entry hentry
  rw [this]

/-- An item that matches in no way leaves the trigger unresolved. -/
theorem pathStep_no_match (E : RippleEffect K) (R : Ripple) (D : DOM K) (item : EventTarget)
    (h : matchesAny R D item = false) : pathStep E R D none item = .ok none := by
  cases item with
  | other => rfl
  | element el =>
    simp only [matchesAny, Bool.or_eq_false_iff] at h
    obtain ⟨⟨ha, hc⟩, hg⟩ := h
    simp only [matchesAttribute] at ha
    simp only [pathStep, ha, Bool.false_eq_true, if_false, Option.isNone_none, if_true,
      foldl_classStep_of_not_matchesClass R D el hc, bind, Except.bind, pure, Except.pure,
      groupStep_of_not_matchesGroup R el hg]

/-- An item without a trigger-for attribute leaves a resolved trigger as it
is. -/
theorem pathStep_resolved (E : RippleEffect K) (R : Ripple) (D : DOM K) (item : EventTarget)
    (h : carriesAttribute D item = false) (r : Resolved) :
    pathStep E R D (some r) item = .ok (some r) := by
  cases item with
  | other => rfl
  | element el =>
    simp only [carriesAttribute, matchesAttribute] at h
    simp only [pathStep, h, Bool.false_eq_true, if_false, Option.isNone_some, bind, Except.bind,
      pure, Except.pure]

theorem foldlM_pathStep_no_match (E : RippleEffect K) (R : Ripple) (D : DOM K)
    (items : List EventTarget) (h : ∀ item ∈ items, matchesAny R D item = false) :
    items.foldlM (pathStep E R D) none = .ok none := by
  induction items with
  | nil => rfl
  | cons item rest ih =>
    rw [List.foldlM_cons, pathStep_no_match E R D item (h item (List.mem_cons_self _ _))]
    exact ih (fun i hi => h i (List.mem_cons_of_mem _ hi))

theorem foldlM_pathStep_resolved (E : RippleEffect K) (R : Ripple) (D : DOM K)
    (items : List EventTarget) (h : ∀ item ∈ items, carriesAttribute D item = false)
    (r : Resolved) : items.foldlM (pathStep E R D) (some r) = .ok (some r) := by
  induction items with
  | nil => rfl
  | cons item rest ih =>
    rw [List.foldlM_cons, pathStep_resolved E R D item (h item (List.mem_cons_self _ _))]
    exact ih (fun i hi => h i (List.mem_cons_of_mem _ hi))

/-- The first item that matches resolves the trigger: by its attribute, else
by the last key, in `Object.keys` order, among the registered class names it
carries, else by the first group that holds it. -/
theorem pathStep_match (E : RippleEffect K) (R : Ripple) (D : DOM K) (el : Elem)
    (targets : List Elem) (hkeys : ∀ entry ∈ R.triggerElements, entry.1 ≠ "")
    (hq : matchesAttribute D el = true →
      D.querySelectorAll ("[data-ripple-target='" ++ (D.rippleTriggerFor el).getD "" ++ "']")
        = .ok targets)
    (hmatch : matchesAny R D (.element el) = true) :
    ∃ r, pathStep E R D none (.element el) = .ok (some r) ∧ r.trigger = el ∧
      (matchesAttribute D el = true →
        r.targets = targets ∧ r.tempOptions = spread (prop E.options "ripple")) ∧
      (matchesAttribute D el = false → matchesClass R D el = true →
        r.targets = [el] ∧
        ∃ entry, (R.triggerClasses.filter
            (fun entry => (D.classList el).contains entry.1)).getLast? = some entry ∧
          r.tempOptions = entry.2.ripple) ∧
      (matchesAttribute D el = false → matchesClass R D el = false →
        r.targets = [el] ∧
        ∃ entry, R.triggerElements.find? (fun entry => entry.2.elements.contains el)
            = some entry ∧
          r.tempOptions = entry.2.ripple) := by
  by_cases ha : matchesAttribute D el = true
  · have ha' : truthyData (D.rippleTriggerFor el) = true := ha
    refine ⟨⟨el, targets, spread (prop E.options "ripple")⟩, ?_, rfl,
      fun _ => ⟨rfl, rfl⟩, fun h => ?_, fun h => ?_⟩
    · simp only [pathStep, ha', if_true, hq ha, bind, Except.bind, pure, Except.pure,
        Option.isNone_some, Bool.false_eq_true, if_false]
    · rw [ha] at h; cases h
    · rw [ha] at h; cases h
  · have ha0 : matchesAttribute D el = false := by simpa using ha
    have ha' : truthyData (D.rippleTriggerFor el) = false := ha0
    by_cases hc : matchesClass R D el = true
    · have hne : R.triggerClasses.filter (fun entry => (D.classList el).contains entry.1)
          ≠ [] := by
        intro hnil
        rw [List.filter_eq_nil_iff] at hnil
        simp only [matchesClass, List.any_eq_true] at hc
        obtain ⟨entry, hentry, hcont⟩ := hc
        exact hnil entry hentry hcont
      obtain ⟨entry, hlast⟩ : ∃ entry, (R.triggerClasses.filter
          (fun entry => (D.classList el).contains entry.1)).getLast? = some entry := by
        cases h : (R.triggerClasses.filter
          (fun entry => (D.classList el).contains entry.1)).getLast? with
        | none => exact absurd (List.getLast?_eq_none_iff.mp h) hne
        | some entry => exact ⟨entry, rfl⟩
      refine ⟨⟨el, [el], entry.2.ripple⟩, ?_, rfl, fun h => ?_,
        fun _ _ => ⟨rfl, entry, hlast, rfl⟩, fun _ h => ?_⟩
      · simp only [pathStep, ha', Bool.false_eq_true, if_false, Option.isNone_none, if_true,
          foldl_classStep, hlast, bind, Except.bind, pure, Except.pure, Option.isNone_some]
      · rw [ha0] at h; cases h
      · rw [hc] at h; cases h
    · have hc0 : matchesClass R D el = false := by simpa using hc
      have hg : matchesGroup R el = true := by
        simp only [matchesAny, ha0, hc0, Bool.false_or] at hmatch
        exact hmatch
      obtain ⟨entry, hfind⟩ : ∃ entry,
          R.triggerElements.find? (fun entry => entry.2.elements.contains el) = some entry := by
        cases h : R.triggerElements.find? (fun entry => entry.2.elements.contains el) with
        | none =>
          rw [List.find?_eq_none] at h
          simp only [matchesGroup, List.any_eq_true] at hg
          obtain ⟨entry, hentry, hcont⟩ := hg
          exact absurd hcont (h entry hentry)
        | some entry => exact ⟨entry, rfl⟩
      have hkey : entry.1 ≠ "" := hkeys entry (List.mem_of_find?_eq_some hfind)
      have hcont : entry.2.elements.contains el = true := by
        have := List.find?_some hfind
        simpa using this
      refine ⟨⟨el, [el], entry.2.ripple⟩, ?_, rfl, fun h => ?_, fun _ h => ?_,
        fun _ _ => ⟨rfl, entry, hfind, rfl⟩⟩
      · obtain ⟨valueID, group⟩ := entry
        simp only [pathStep, ha', Bool.false_eq_true, if_false, Option.isNone_none, if_true,
          foldl_classStep_of_not_matchesClass R D el hc0, bind, Except.bind, pure, Except.pure,
          groupStep, hfind]
        simp only at hkey hcont
        have hmem : el ∈ group.elements := by simpa using hcont
        simp [hkey, hmem]
      · rw [ha0] at h; cases h
      · rw [hc0] at h; cases h

end Resolution

section PassArguments

variable {K : Type} [LinearOrderedField K] [FloorRing K]

/-- The walk of the path where no item further out than the innermost match
carries a trigger-for attribute, every group key being non-empty: when no
item of the path matches, the walk resolves no trigger and `passArguments`
creates no ripple; and when `el` is the innermost item that matches (by a
trigger-for attribute that is not empty, a registered class name or a
registered group), the trigger resolved is `el`, by its attribute if it has
one (the targets are those the document pairs with it, the options the
engine's own), else by a class name it carries (the last key in
`Object.keys` order among them gives the options), else by its group. -/
theorem passArguments_resolves_innermost (sqrt : K → K) (E : RippleEffect K) (R : Ripple)
    (D : DOM K) (rand : Nat → Nat → Fin 52) (now : Nat → Nat) (e : Event K)
    (inner outer : List EventTarget) (el : Elem) (targets : List Elem)
    (hkeys : ∀ entry ∈ R.triggerElements, entry.1 ≠ "")
    (hinner : ∀ item ∈ inner, matchesAny R D item = false)
    (houter : ∀ item ∈ outer, carriesAttribute D item = false)
    (hq : matchesAttribute D el = true →
      D.querySelectorAll ("[data-ripple-target='" ++ (D.rippleTriggerFor el).getD "" ++ "']")
        = .ok targets) :
    (e.composedPath = inner →
        resolveTrigger E R D e.composedPath = .ok none ∧
        passArguments sqrt E R D rand now e = ⟨E, [], none⟩) ∧
      (matchesAny R D (.element el) = true →
        ∃ r, resolveTrigger E R D (inner ++ .element el :: outer) = .ok (some r) ∧
          r.trigger = el ∧
          (matchesAttribute D el = true →
            r.targets = targets ∧ r.tempOptions = spread (prop E.options "ripple")) ∧
          (matchesAttribute D el = false → matchesClass R D el = true →
            r.targets = [el] ∧
            ∃ entry, (R.triggerClasses.filter
                (fun entry => (D.classList el).contains entry.1)).getLast? = some entry ∧
              r.tempOptions = entry.2.ripple) ∧
          (matchesAttribute D el = false → matchesClass R D el = false →
            r.targets = [el] ∧
            ∃ entry, R.triggerElements.find? (fun entry => entry.2.elements.contains el)
                = some entry ∧
              r.tempOptions = entry.2.ripple)) := by
  constructor
  · intro hpath
    have hres : resolveTrigger E R D e.composedPath = .ok none := by
      rw [hpath]
      exact foldlM_pathStep_no_match E R D inner hinner
    refine ⟨hres, ?_⟩
    unfold passArguments
    rw [hres]
    split
    · rfl
    · split <;> rfl
  · intro hmatch
    obtain ⟨r, hstep, hrest⟩ := pathStep_match E R D el targets hkeys hq hmatch
    refine ⟨r, ?_, hrest⟩
    unfold resolveTrigger
    rw [List.foldlM_append, foldlM_pathStep_no_match E R D inner hinner]
    show List.foldlM (pathStep E R D) none (EventTarget.element el :: outer) = _
    rw [List.foldlM_cons, hstep]
    exact foldlM_pathStep_resolved E R D outer houter r

end PassArguments

/-- The walk at the sample document and the loaded registry: the path
`[7]` resolves nothing and creates nothing; in the path `[7, 1, 5, window]`
the element `1`, which carries the class `ripple-effect`, is the trigger. -/
theorem passArguments_resolves_innermost_witness :
    (resolveTrigger (RippleEffect.fresh : RippleEffect ℚ) Ripple.loaded DOM.sample
          [.element 7] = .ok none ∧
        passArguments id RippleEffect.fresh Ripple.loaded DOM.sample (fun _ _ => 0)
            (fun _ => 0) ⟨"mousedown", some 0, [.element 7], 3, 4, []⟩
          = ⟨RippleEffect.fresh, [], none⟩) ∧
      ∃ r, resolveTrigger (RippleEffect.fresh : RippleEffect ℚ) Ripple.loaded DOM.sample
            [.element 7, .element 1, .element 5, .other] = .ok (some r) ∧
          r.trigger = 1 ∧ r.targets = [1] := by
  obtain ⟨h1, h2⟩ := passArguments_resolves_innermost id (RippleEffect.fresh : RippleEffect ℚ)
    Ripple.loaded DOM.sample (fun _ _ => 0) (fun _ => 0)
    ⟨"mousedown", some 0, [.element 7], 3, 4, []⟩ [.element 7] [.element 5, .other] 1 []
    (by simp [Ripple.loaded]) (by decide) (by decide) (fun h => by cases h)
  obtain ⟨r, hr, htrigger, -, hclass, -⟩ := h2 (by decide)
  exact ⟨h1 rfl, r, hr, htrigger, (hclass (by decide) (by decide)).1⟩

/-- C9, the path at which the code departs from it: an item further out
carries a trigger-for attribute. In the path `[1, 2, window]` the element `1`
matches by its class, and the trigger resolved is the element `2`, with the
target `3`: the attribute branch of the walk is the one branch that does not
ask whether a trigger was found already. -/
theorem passArguments_outer_attribute_chosen :
    matchesAny Ripple.loaded DOM.sample (.element 1) = true ∧
      ∃ r, resolveTrigger (RippleEffect.fresh : RippleEffect ℚ) Ripple.loaded DOM.sample
            [.element 1, .element 2, .other] = .ok (some r) ∧
          r.trigger = 2 ∧ r.targets = [3] ∧
          ((passArguments id RippleEffect.fresh Ripple.loaded DOM.sample (fun _ _ => 0)
              (fun _ => 0) ⟨"mousedown", some 0, [.element 1, .element 2, .other], 3, 4, []⟩
            ).created.map (fun c => c.target)) = [3] :=
  ⟨by decide, _, rfl, rfl, rfl, by decide⟩

/-! ## The options of the engine -/

/-- C10, the input at which the code departs from it: after
`Ripple.initialize({ripple: {duration: 500}})` the engine's `ripple` options
are the supplied object alone, so `delay`, `container` and `target` read
`undefined` instead of `200`, `'.ripple-container'` and `false`. -/
theorem initialize_partial_ripple_drops_defaults :
    ∃ E : RippleEffect ℚ,
      Ripple.initialize (.object [("ripple", .object [("duration", .num 500)])]) = .ok E ∧
      E.options = [("debug", .bool false), ("ripple", .object [("duration", .num 500)])] ∧
      prop (spread (prop E.options "ripple")) "duration" = .num 500 ∧
      prop (spread (prop E.options "ripple")) "delay" = .undefined ∧
      prop (spread (prop E.options "ripple")) "container" = .undefined ∧
      prop (spread (prop E.options "ripple")) "target" = .undefined :=
  ⟨_, rfl, rfl, rfl, rfl, rfl, rfl⟩


/-! ## The merge of the options -/

namespace JSObject

variable {α : Type}

theorem keys_set_of_mem (o : JSObject α) (k : String) (v : α) (hk : k ∈ o.keys) :
    (o.set k v).keys = o.keys := by
  unfold set
  have hhas : o.has k = true := by
    cases h : o.has k with
    | true => rfl
    | false => exact absurd hk ((has_eq_false_iff o k).mp h)
  rw [if_pos hhas]
  unfold keys
  rw [List.map_map]
  apply List.map_congr_left
  intro e _
  by_cases he : e.1 = k <;> simp [he]

theorem get_delete (o : JSObject α) (k k' : String) :
    get (o.delete k) k' = if k' = k then none else get o k' := by
  induction o with
  | nil => by_cases h : k' = k <;> simp [delete, get, h]
  | cons e rest ih =>
    unfold delete at ih ⊢
    by_cases he : e.1 = k
    · have hf : (e :: rest).filter (fun e => e.1 != k) = rest.filter (fun e => e.1 != k) := by
        simp [List.filter_cons, he]
      rw [hf, ih, get_cons]
      by_cases h : k' = k
      · simp [h]
      · have : ¬ e.1 = k' := fun h' => h (h'.symm.trans he)
        simp [h, this]
    · have hf : (e :: rest).filter (fun e => e.1 != k)
          = e :: rest.filter (fun e => e.1 != k) := by
        simp [List.filter_cons, he]
      rw [hf, get_cons, ih, get_cons]
      by_cases h : k' = k
      · have : ¬ e.1 = k' := fun h' => he (h'.trans h)
        simp [h, he]
      · simp [h]

theorem get_eq_none_of_not_mem (o : JSObject α) (k : String) (hk : k ∉ o.keys) :
    get o k = none := by
  induction o with
  | nil => rfl
  | cons e rest ih =>
    simp only [keys, List.map_cons, List.mem_cons, not_or] at hk
    rw [get_cons, if_neg (fun h => hk.1 h.symm)]
    exact ih hk.2

end JSObject

theorem JSObject.has_of_mem_keys {α : Type} (o : JSObject α) (k : String) (hk : k ∈ o.keys) :
    o.has k = true := by
  by_contra h
  exact (JSObject.has_eq_false_iff o k).mp (by simpa using h) hk

theorem get_foldl_merge (T : JSObject JSVal) (ks : List String) (o : JSObject JSVal)
    (hks : ∀ k ∈ ks, k ∈ o.keys) (k : String) :
    JSObject.get (ks.foldl
        (fun options option =>
          if isUndefined (lookup T option) then options
          else options.set option (lookup T option)) o) k
      = if k ∈ ks ∧ isUndefined (lookup T k) = false then some (lookup T k)
        else JSObject.get o k := by
  induction ks generalizing o with
  | nil => simp
  | cons a rest ih =>
    have ha : a ∈ o.keys := hks a (List.mem_cons_self _ _)
    have hrestkeys : ∀ k ∈ rest, k ∈ o.keys := fun k hk => hks k (List.mem_cons_of_mem _ hk)
    rw [List.foldl_cons]
    by_cases hu : isUndefined (lookup T a) = true
    · rw [if_pos hu, ih o hrestkeys]
      by_cases hrest : k ∈ rest ∧ isUndefined (lookup T k) = false
      · rw [if_pos hrest, if_pos ⟨List.mem_cons_of_mem _ hrest.1, hrest.2⟩]
      · rw [if_neg hrest]
        have : ¬ (k ∈ a :: rest ∧ isUndefined (lookup T k) = false) := by
          rintro ⟨hmem, hdef⟩
          rcases List.mem_cons.mp hmem with h | h
          · rw [h, hu] at hdef; cases hdef
          · exact hrest ⟨h, hdef⟩
        rw [if_neg this]
    · rw [if_neg hu, ih (o.set a (lookup T a))
        (fun k hk => by rw [JSObject.keys_set_of_mem o a _ ha]; exact hrestkeys k hk)]
      by_cases hrest : k ∈ rest ∧ isUndefined (lookup T k) = false
      · rw [if_pos hrest, if_pos ⟨List.mem_cons_of_mem _ hrest.1, hrest.2⟩]
      · rw [if_neg hrest, JSObject.get_set_of o a k _ (Or.inl (JSObject.has_of_mem_keys o a ha))]
        by_cases hk : k = a
        · subst hk
          rw [if_pos rfl, if_pos ⟨List.mem_cons_self _ _, by simpa using hu⟩]
        · rw [if_neg hk]
          have : ¬ (k ∈ a :: rest ∧ isUndefined (lookup T k) = false) := by
            rintro ⟨hmem, hdef⟩
            rcases List.mem_cons.mp hmem with h | h
            · exact hk h
            · exact hrest ⟨h, hdef⟩
          rw [if_neg this]

theorem keys_foldl_merge (T : JSObject JSVal) (ks : List String) (o : JSObject JSVal)
    (hks : ∀ k ∈ ks, k ∈ o.keys) :
    (ks.foldl
        (fun options option =>
          if isUndefined (lookup T option) then options
          else options.set option (lookup T option)) o).keys = o.keys := by
  induction ks generalizing o with
  | nil => rfl
  | cons a rest ih =>
    rw [List.foldl_cons]
    have ha : a ∈ o.keys := hks a (List.mem_cons_self _ _)
    by_cases hu : isUndefined (lookup T a) = true
    · rw [if_pos hu]
      exact ih o (fun k hk => hks k (List.mem_cons_of_mem _ hk))
    · rw [if_neg hu, ih, JSObject.keys_set_of_mem o a _ ha]
      intro k hk
      rw [JSObject.keys_set_of_mem o a _ ha]
      exact hks k (List.mem_cons_of_mem _ hk)

theorem prop_mergeOptions (G T : JSObject JSVal) (k : String) :
    prop (mergeOptions G T) k
      = if k ∈ G.keys ∧ isUndefined (lookup T k) = false then lookup T k else prop G k := by
  have h : prop (mergeOptions G T) k = ((mergeOptions G T).get k).getD .undefined := rfl
  rw [h, mergeOptions, get_foldl_merge T G.keys G (fun _ hk => hk)]
  split <;> rfl

/-- A key an object does not have reads what `Object.prototype` gives. -/
theorem lookup_of_not_mem (T : JSObject JSVal) (k : String) (hk : k ∉ T.keys) :
    lookup T k = if k ∈ Object.prototype then Object.inherited else .undefined := by
  unfold lookup
  rw [JSObject.get_eq_none_of_not_mem T k hk]

/-- C11 (amended). For every global ripple configuration `G` and every
override `T` of the matched trigger, the options `M` that `passArguments`
merges have the keys of `G`, and for every key `k` of `G`: `M[k] = T[k]`
where `T[k]`, its own or inherited from `Object.prototype`, is not
`undefined`, and `M[k] = G[k]` where it is. So `M[k] = G[k]` for a key `T`
does not have, unless the key names a property of `Object.prototype` (such as
`toString`): `M` then takes the value `T` inherits. A key of `T` that `G`
does not have is not in `M`. -/
theorem mergeOptions_keys_of_global (G T : JSObject JSVal) :
    (mergeOptions G T).keys = G.keys ∧
      (∀ k ∈ G.keys, isUndefined (lookup T k) = false →
        prop (mergeOptions G T) k = lookup T k) ∧
      (∀ k ∈ G.keys, isUndefined (lookup T k) = true →
        prop (mergeOptions G T) k = prop G k) ∧
      (∀ k ∈ G.keys, k ∉ T.keys → k ∉ Object.prototype →
        prop (mergeOptions G T) k = prop G k) ∧
      (∀ k ∈ G.keys, k ∉ T.keys → k ∈ Object.prototype →
        prop (mergeOptions G T) k = Object.inherited) ∧
      (∀ k ∈ T.keys, lookup T k = prop T k) ∧
      (∀ k, k ∉ G.keys → k ∉ (mergeOptions G T).keys) := by
  have hkeys := keys_foldl_merge T G.keys G (fun _ h => h)
  refine ⟨hkeys, ?_, ?_, ?_, ?_, ?_, ?_⟩
  · intro k hk hdef
    rw [prop_mergeOptions, if_pos ⟨hk, hdef⟩]
  · intro k _ hu
    rw [prop_mergeOptions, if_neg (fun h => by rw [hu] at h; cases h.2)]
  · intro k _ hk hproto
    have hu : isUndefined (lookup T k) = true := by
      rw [lookup_of_not_mem T k hk, if_neg hproto]
      rfl
    rw [prop_mergeOptions, if_neg (fun h => by rw [hu] at h; cases h.2)]
  · intro k hG hk hproto
    have hl : lookup T k = Object.inherited := by
      rw [lookup_of_not_mem T k hk, if_pos hproto]
    rw [prop_mergeOptions, if_pos ⟨hG, by rw [hl]; rfl⟩, hl]
  · intro k hk
    have hhas := JSObject.has_of_mem_keys T k hk
    unfold lookup prop
    cases hget : T.get k with
    | some v => rfl
    | none =>
      exfalso
      simp only [JSObject.get, Option.map_eq_none', List.find?_eq_none] at hget
      simp only [JSObject.has, List.any_eq_true] at hhas
      obtain ⟨e, he, hek⟩ := hhas
      exact hget e he hek
  · intro k hk
    show k ∉ (mergeOptions G T).keys
    unfold mergeOptions
    rw [hkeys]
    exact hk

/-- C11 as stated fails for a key the override has with the value
`undefined`, and for a key the global configuration does not have: merged
over the default configuration, the override
`{duration: undefined, ripples: 3}` leaves `duration` at `225` and `ripples`
`undefined`. It fails as well for a key of the global configuration that
names a property of `Object.prototype`: the empty override gives
`{toString: 1}` the function it inherits. -/
theorem mergeOptions_skips_undefined_and_foreign :
    prop [("duration", JSVal.undefined), ("ripples", .num 3)] "ripples" = .num 3 ∧
      "ripples" ∉ (mergeOptions (spread (prop defaultOptions "ripple"))
          [("duration", .undefined), ("ripples", .num 3)]).keys ∧
      prop (mergeOptions (spread (prop defaultOptions "ripple"))
          [("duration", .undefined), ("ripples", .num 3)]) "duration" = .num 225 ∧
      prop (mergeOptions [("toString", .num 1)] []) "toString" = Object.inherited :=
  ⟨rfl, by decide, rfl, rfl⟩

/-! ## The removal of a ripple -/

/-- C13. For every table of active ripples and every ripple instance, once
`removeRipple` has run its `try` block the identifier of the instance is no
key of the table and its node is not in the document, while every entry under
another identifier, every other node and the rest of the engine are as
before. -/
theorem removeRipple_frame {K : Type} (S : Stage K) (ref : Nat) (ripple : RippleNode K) :
    ripple.rippleId ∉ (removeRippleFinish S ref ripple).effect.activeRipples.keys ∧
      (removeRippleFinish S ref ripple).effect.activeRipples.get ripple.rippleId = none ∧
      ref ∉ (removeRippleFinish S ref ripple).attached ∧
      (∀ k, k ≠ ripple.rippleId →
        (removeRippleFinish S ref ripple).effect.activeRipples.get k
          = S.effect.activeRipples.get k) ∧
      (removeRippleFinish S ref ripple).effect.activeRipples
        = S.effect.activeRipples.filter (fun entry => entry.1 != ripple.rippleId) ∧
      (∀ node, node ≠ ref →
        (node ∈ (removeRippleFinish S ref ripple).attached ↔ node ∈ S.attached)) ∧
      (removeRippleFinish S ref ripple).visible = S.visible ∧
      (removeRippleFinish S ref ripple).effect.options = S.effect.options ∧
      (removeRippleFinish S ref ripple).effect.touchDelay = S.effect.touchDelay := by
  refine ⟨?_, ?_, ?_, ?_, rfl, ?_, rfl, rfl, rfl⟩
  · simp [removeRippleFinish, JSObject.delete, JSObject.keys]
  · simp [removeRippleFinish, JSObject.get_delete]
  · simp [removeRippleFinish]
  · intro k hk
    simp [removeRippleFinish, JSObject.get_delete, hk]
  · intro node hnode
    simp [removeRippleFinish, hnode]

/-! ## The disabled checks -/

theorem addRipple_entry {K : Type} [LinearOrderedField K] (sqrt : K → K) (D : DOM K) (E : RippleEffect K) (rand : Nat → Fin 52)
    (now : Nat) (x y : K) (target : Elem) (container : Container)
    (options : JSObject JSVal) :
    ∃ node, addRipple sqrt D E rand now (.num x) (.num y) target (some container)
        (some options)
      = .ok ({ E with activeRipples :=
                E.activeRipples.set (genRandomID rand 16) ⟨target, node, options, false⟩ },
             node) :=
  ⟨_, rfl⟩

section Disabled

variable {K : Type} [LinearOrderedField K] [FloorRing K]

theorem targetStep_of_isDisabled (sqrt : K → K) (D : DOM K) (rand : Nat → Nat → Fin 52)
    (now : Nat → Nat) (trigger : Elem) (ev : Option (K × K)) (st : TargetLoop K)
    (target : Elem) (h : isDisabled D st.options trigger target = true) :
    targetStep sqrt D rand now trigger ev st target = .ok st := by
  unfold targetStep
  simp only [isDisabled, Bool.or_eq_true, Bool.and_eq_true] at h
  rcases h with (h | h) | h
  · have h1 : (truthy (prop st.options "disabled")
        || (D.classList trigger).contains "ripple-disabled"
        || (D.classList target).contains "ripple-disabled") = true := by
      simp only [Bool.or_eq_true]
      exact Or.inl h
    rw [if_pos h1]
    rfl
  · have h1 : (truthy (prop st.options "disabled")
        || (D.classList trigger).contains "ripple-disabled"
        || (D.classList target).contains "ripple-disabled") = true := by
      simp only [Bool.or_eq_true]
      exact Or.inr h
    rw [if_pos h1]
    rfl
  · split
    · rfl
    · have h2 : (truthy (prop st.options "disabledAttribute")
          && (D.disabled trigger || D.disabled target)) = true := by
        simp only [Bool.and_eq_true, Bool.or_eq_true]
        exact h
      rw [if_pos h2]
      rfl

theorem targetStep_of_not_isDisabled (sqrt : K → K) (D : DOM K) (rand : Nat → Nat → Fin 52)
    (now : Nat → Nat) (trigger : Elem) (p : K × K) (st : TargetLoop K) (target : Elem)
    (container : Container) (options' : JSObject JSVal)
    (hcont : resolveContainer D st.options target = .ok (options', some container))
    (h : isDisabled D st.options trigger target = false) :
    ∃ E' node,
      targetStep sqrt D rand now trigger (some p) st target
        = .ok { options := options', effect := E',
                created := st.created ++ [⟨target, container,
                  truthy (prop options' "helperClass")
                    && !((D.classList trigger).contains "ripple-no-helper-class"
                          || (D.classList target).contains "ripple-no-helper-class"),
                  node⟩] } ∧
      E'.activeRipples.get (genRandomID (rand st.created.length) 16)
        = some ⟨target, node, options', false⟩ := by
  simp only [isDisabled, Bool.or_eq_false_iff] at h
  obtain ⟨⟨⟨h1, h2⟩, h3⟩, hsecond⟩ := h
  have hfirst : (truthy (prop st.options "disabled")
      || (D.classList trigger).contains "ripple-disabled"
      || (D.classList target).contains "ripple-disabled") = false := by
    simp only [Bool.or_eq_false_iff]
    exact ⟨⟨h1, h2⟩, h3⟩
  unfold targetStep
  rw [hfirst, hsecond]
  simp only [Bool.false_eq_true, if_false, hcont, bind, Except.bind, pure, Except.pure]
  split
  · obtain ⟨node, hadd⟩ := addRipple_entry sqrt D st.effect (rand st.created.length)
      (now st.created.length) (D.clientWidth target / 2) (D.clientHeight target / 2) target
      container options'
    rw [hadd]
    exact ⟨_, node, rfl, by simp [JSObject.get_set _ _ _ _ (genRandomID_ne_proto _)]⟩
  · obtain ⟨node, hadd⟩ := addRipple_entry sqrt D st.effect (rand st.created.length)
      (now st.created.length) (p.1 - Math.round (D.boundingX trigger))
      (p.2 - Math.round (D.boundingY trigger)) target container options'
    rw [hadd]
    exact ⟨_, node, rfl, by simp [JSObject.get_set _ _ _ _ (genRandomID_ne_proto _)]⟩

/-- The disabled checks, for every trigger, target and effective options for
which the resolution of the container returns a container: where one of the
disabled conditions holds (the option `disabled` is truthy; the trigger or
the target carries the class `ripple-disabled`; the option
`disabledAttribute` is truthy and the trigger or the target is disabled),
`passArguments` skips the target, which adds no entry and no ripple, and goes
on with the other targets from the same state; where none holds, it creates
one ripple for the target, with an entry of `activeRipples` under the new
identifier, and goes on with the other targets. -/
theorem passArguments_skips_disabled (sqrt : K → K) (D : DOM K) (rand : Nat → Nat → Fin 52)
    (now : Nat → Nat) (trigger : Elem) (p : K × K) (st : TargetLoop K) (target : Elem)
    (rest : List Elem) (container : Container) (options' : JSObject JSVal)
    (hcont : resolveContainer D st.options target = .ok (options', some container)) :
    (isDisabled D st.options trigger target = true →
        targetStep sqrt D rand now trigger (some p) st target = .ok st ∧
        forEachTarget (targetStep sqrt D rand now trigger (some p)) st (target :: rest)
          = forEachTarget (targetStep sqrt D rand now trigger (some p)) st rest) ∧
      (isDisabled D st.options trigger target = false →
        ∃ st', targetStep sqrt D rand now trigger (some p) st target = .ok st' ∧
          (∃ helperClass node,
            st'.created = st.created ++ [⟨target, container, helperClass, node⟩] ∧
            st'.effect.activeRipples.get (genRandomID (rand st.created.length) 16)
              = some ⟨target, node, options', false⟩) ∧
          forEachTarget (targetStep sqrt D rand now trigger (some p)) st (target :: rest)
            = forEachTarget (targetStep sqrt D rand now trigger (some p)) st' rest) := by
  constructor
  · intro h
    have hstep := targetStep_of_isDisabled sqrt D rand now trigger (some p) st target h
    refine ⟨hstep, ?_⟩
    rw [forEachTarget, hstep]
  · intro h
    obtain ⟨E', node, hstep, hget⟩ :=
      targetStep_of_not_isDisabled sqrt D rand now trigger p st target container options'
        hcont h
    refine ⟨_, hstep, ⟨_, node, rfl, hget⟩, ?_⟩
    rw [forEachTarget, hstep]

end Disabled

/-- The disabled checks at the sample document with the default options: the
element `1` is not disabled and gets one ripple in a new container. -/
theorem passArguments_skips_disabled_witness :
    isDisabled DOM.sample (spread (prop defaultOptions "ripple")) 1 1 = false ∧
      ∃ st', targetStep id DOM.sample (fun _ _ => 0) (fun _ => 0) 1 (some (3, 4))
            ⟨spread (prop defaultOptions "ripple"), RippleEffect.fresh, []⟩ 1 = .ok st' ∧
          ∃ helperClass node,
            st'.created = [⟨1, .created "ripple-container" (some "0px"), helperClass, node⟩] ∧
            st'.effect.activeRipples.get "AAAAAAAAAAAAAAAA"
              = some ⟨1, node, (spread (prop defaultOptions "ripple")).set "container"
                  (.str "ripple-container"), false⟩ := by
  obtain ⟨-, h⟩ := passArguments_skips_disabled id DOM.sample (fun _ _ => 0) (fun _ => 0) 1
    ((3, 4) : ℚ × ℚ) ⟨spread (prop defaultOptions "ripple"), RippleEffect.fresh, []⟩ 1 []
    (.created "ripple-container" (some "0px"))
    ((spread (prop defaultOptions "ripple")).set "container" (.str "ripple-container")) rfl
  obtain ⟨st', hstep, ⟨helperClass, node, hcreated, hget⟩, -⟩ := h (by decide)
  exact ⟨by decide, st', hstep, helperClass, node, hcreated, hget⟩

/-- C12, the input at which the code departs from it: a target that is not
disabled and whose container is not found. The element `1` names the
container class `inner`, has no such descendant, and `passArguments` throws
on `appendChild` of `null` without a ripple or an entry, where the branch of
the option `container` creates the container that is not found. -/
theorem passArguments_missing_container_no_ripple :
    isDisabled DOM.missingContainer
        (mergeOptions (spread (prop defaultOptions "ripple")) []) 1 1 = false ∧
      (passArguments id RippleEffect.fresh Ripple.loaded DOM.missingContainer (fun _ _ => 0)
          (fun _ => 0) (Event.mousedown [.element 1])).created = [] ∧
      (passArguments id RippleEffect.fresh Ripple.loaded DOM.missingContainer (fun _ _ => 0)
          (fun _ => 0) (Event.mousedown [.element 1])).effect.activeRipples = [] ∧
      (passArguments id RippleEffect.fresh Ripple.loaded DOM.missingContainer (fun _ _ => 0)
          (fun _ => 0) (Event.mousedown [.element 1])).thrown = some .TypeError :=
  ⟨by decide, rfl, rfl, rfl⟩

/-- A target that is not disabled and gets no ripple either: the option
`target` of its class is an array, which the comments and the documentation
accept, and `passArguments` throws on `options['target'].isArray()`, a method
arrays do not have. -/
theorem passArguments_array_target_throws :
    ∃ R, Ripple.attach Ripple.loaded (.str ".ripple-effect")
        (.object [("target", .array [.element 2])]) (fun _ => 0) = .ok R ∧
      (passArguments id RippleEffect.fresh R DOM.sample (fun _ _ => 0) (fun _ => 0)
          (Event.mousedown [.element 1])).created = [] ∧
      (passArguments id RippleEffect.fresh R DOM.sample (fun _ _ => 0) (fun _ => 0)
          (Event.mousedown [.element 1])).effect.activeRipples = [] ∧
      (passArguments id RippleEffect.fresh R DOM.sample (fun _ _ => 0) (fun _ => 0)
          (Event.mousedown [.element 1])).thrown = some .TypeError :=
  ⟨_, rfl, rfl, rfl, rfl⟩

/-! ## The container of a ripple -/

/-- C15, the input at which the code departs from it: the target `1` has
the direct child `9` of the class `ripple-container`, no container-class
attribute, and the configured container `.ripple-container`; the loop that
sets `isDirectChild` goes over the children of the element found, not over
those of the target, so the child is not reused and a new container is
created. -/
theorem resolveContainer_creates_beside_existing :
    DOM.withContainer.querySelector 1 ".ripple-container" = .ok (some 9) ∧
      9 ∈ DOM.withContainer.children 1 ∧
      (resolveContainer DOM.withContainer (spread (prop defaultOptions "ripple")) 1).map
          Prod.snd = .ok (some (.created "ripple-container" (some "0px"))) ∧
      (passArguments id RippleEffect.fresh Ripple.loaded DOM.withContainer (fun _ _ => 0)
          (fun _ => 0) (Event.mousedown [.element 1])).created.map (fun c => c.container)
        = [.created "ripple-container" (some "0px")] :=
  ⟨rfl, by decide, rfl, rfl⟩

/-! ## The wait of `hideRipple` -/

/-- What `hideRipple` does up to its sleep when the entry of the ripple is in
`activeRipples` and the times are numbers: nothing when the time elapsed
since the ripple was to be shown is `0`, and otherwise a sleep of the
duration less the elapsed time, and `150` more on `touchmove` and
`mouseleave`. -/
theorem hideRippleSleep_of_entry {K : Type} (E : RippleEffect K) (ripple : RippleNode K)
    (entry : ActiveRipple K) (eventType : String) (currentTime created : Nat) (delay duration : ℚ)
    (hget : E.activeRipples.get ripple.rippleId = some entry)
    (hcreated : ripple.rippleCreated = created)
    (hdelay : toNumber E.touchDelay = some delay)
    (hduration : toNumber (prop entry.options "duration") = some duration) :
    hideRippleSleep E ripple eventType currentTime =
      if (currentTime : ℚ) - created - delay = 0 then .noSleep
      else .sleep (some (duration - ((currentTime : ℚ) - created - delay) +
        if eventType = "touchmove" ∨ eventType = "mouseleave" then 150 else 0)) := by
  unfold hideRippleSleep
  rw [hget]
  simp only [hcreated, hdelay, hduration, numSub, numAdd, numTruthy]
  by_cases h0 : (currentTime : ℚ) - created - delay = 0
  · simp [h0]
  · by_cases hty : eventType = "touchmove" ∨ eventType = "mouseleave"
    · have hne : eventType ≠ "" := by
        rcases hty with h | h <;> rw [h] <;> decide
      simp [h0, hty, hne]
    · simp [h0, hty]

/-- C17, the input at which the code departs from it: a ripple created at
the time `1000` with the duration `225`, by a `mousedown` (touch delay `0`)
or by a `touchstart` (touch delay `200`), and hidden when no time beyond the
touch delay has elapsed: `hideRipple` does not sleep at all, where the claim
has it wait `225`, or `375` on `mouseleave`. Once time has elapsed the sleep
is `duration - elapsed`, and `150` more on `mouseleave` and `touchmove`. -/
theorem hideRipple_no_wait_at_zero_elapsed :
    (∃ entry, RippleEffect.clicked.activeRipples.get "AAAAAAAAAAAAAAAA" = some entry ∧
        entry.ripple.rippleCreated = 1000 ∧ entry.ripple.rippleId = "AAAAAAAAAAAAAAAA" ∧
        prop entry.options "duration" = .num 225 ∧
        RippleEffect.clicked.touchDelay = .num 0 ∧
        hideRippleSleep RippleEffect.clicked entry.ripple "mouseup" 1000 = .noSleep ∧
        hideRippleSleep RippleEffect.clicked entry.ripple "mouseleave" 1000 = .noSleep ∧
        hideRippleSleep RippleEffect.clicked entry.ripple "mouseup" 1100
          = .sleep (some 125) ∧
        hideRippleSleep RippleEffect.clicked entry.ripple "mouseleave" 1100
          = .sleep (some 275)) ∧
      ∃ entry, RippleEffect.touched.activeRipples.get "AAAAAAAAAAAAAAAA" = some entry ∧
        entry.ripple.rippleCreated = 1000 ∧ entry.ripple.rippleId = "AAAAAAAAAAAAAAAA" ∧
        prop entry.options "duration" = .num 225 ∧
        RippleEffect.touched.touchDelay = .num 200 ∧
        hideRippleSleep RippleEffect.touched entry.ripple "touchend" 1200 = .noSleep ∧
        hideRippleSleep RippleEffect.touched entry.ripple "touchmove" 1200 = .noSleep ∧
        hideRippleSleep RippleEffect.touched entry.ripple "touchmove" 1201
          = .sleep (some 374) := by
  obtain ⟨entry, hget, hcreated, hid, hduration⟩ :
      ∃ entry, RippleEffect.clicked.activeRipples.get "AAAAAAAAAAAAAAAA" = some entry ∧
        entry.ripple.rippleCreated = 1000 ∧ entry.ripple.rippleId = "AAAAAAAAAAAAAAAA" ∧
        prop entry.options "duration" = .num 225 := ⟨_, rfl, rfl, rfl, rfl⟩
  obtain ⟨entry', hget', hcreated', hid', hduration'⟩ :
      ∃ entry, RippleEffect.touched.activeRipples.get "AAAAAAAAAAAAAAAA" = some entry ∧
        entry.ripple.rippleCreated = 1000 ∧ entry.ripple.rippleId = "AAAAAAAAAAAAAAAA" ∧
        prop entry.options "duration" = .num 225 := ⟨_, rfl, rfl, rfl, rfl⟩
  have hdelay : RippleEffect.clicked.touchDelay = .num 0 := rfl
  have hdelay' : RippleEffect.touched.touchDelay = .num 200 := rfl
  have key := fun eventType currentTime =>
    hideRippleSleep_of_entry RippleEffect.clicked entry.ripple entry eventType currentTime 1000 0
      225 (by rw [hid]; exact hget) hcreated (by rw [hdelay]; rfl) (by rw [hduration]; rfl)
  have key' := fun eventType currentTime =>
    hideRippleSleep_of_entry RippleEffect.touched entry'.ripple entry' eventType currentTime 1000
      200 225 (by rw [hid']; exact hget') hcreated' (by rw [hdelay']; rfl)
      (by rw [hduration']; rfl)
  refine ⟨⟨entry, hget, hcreated, hid, hduration, hdelay, ?_, ?_, ?_, ?_⟩,
    ⟨entry', hget', hcreated', hid', hduration', hdelay', ?_, ?_, ?_⟩⟩
  · rw [key, if_pos (by norm_num)]
  · rw [key, if_pos (by norm_num)]
  · rw [key, if_neg (by norm_num), if_neg (by decide)]; norm_num
  · rw [key, if_neg (by norm_num), if_pos (by decide)]; norm_num
  · rw [key', if_pos (by norm_num)]
  · rw [key', if_pos (by norm_num)]
  · rw [key', if_neg (by norm_num), if_pos (by decide)]; norm_num

/-! ## A touch that moves -/

/-- C14, the sequence of events at which the code departs from it: a ripple
created by a `touchstart` with the delay `200`, a `touchmove` before the
delay has elapsed, and no `touchend` or `touchcancel` before it has. When
`showRipple` resumes the node is not shown, but neither is it removed: its
entry stays in `activeRipples`, its node stays in the document, and no
listener of the call is left that could remove them. (A `touchend` on the
target that arrives after the move and before the delay has elapsed does
remove them at once.) -/
theorem showRipple_touchmove_leaves_ripple :
    ∃ entry c, RippleEffect.touched.activeRipples.get "AAAAAAAAAAAAAAAA" = some entry ∧
      RippleEffect.touched.touchDelay = .num 200 ∧
      showRippleStart RippleEffect.touched entry.ripple = some c ∧
      (showRippleResume ⟨RippleEffect.touched, [0], []⟩ (touchMove c) 0).1.visible = [] ∧
      (showRippleResume ⟨RippleEffect.touched, [0], []⟩ (touchMove c) 0).1.attached = [0] ∧
      (showRippleResume ⟨RippleEffect.touched, [0], []⟩ (touchMove c)
          0).1.effect.activeRipples.keys = ["AAAAAAAAAAAAAAAA"] ∧
      (∀ type, (showRippleResume ⟨RippleEffect.touched, [0], []⟩ (touchMove c) 0).2.hears type
          = false) ∧
      (touchEndRipple ⟨RippleEffect.touched, [0], []⟩ (touchMove c) 0 entry.ripple
          true).1.effect.activeRipples.keys = [] ∧
      (touchEndRipple ⟨RippleEffect.touched, [0], []⟩ (touchMove c) 0 entry.ripple
          true).1.attached = [] :=
  ⟨_, _, rfl, rfl, rfl, rfl, rfl, rfl, fun _ => rfl, rfl, rfl⟩

/-! ## Groups of elements under sequences of calls -/

theorem length_le_one_of_keys {α : Type} (l : JSObject α) (hnd : l.keys.Nodup)
    (hsame : ∀ a ∈ l, ∀ b ∈ l, a.1 = b.1) : l.length ≤ 1 := by
  match l, hnd, hsame with
  | [], _, _ => simp
  | [_], _, _ => simp
  | a :: b :: rest, hnd, hsame =>
    exfalso
    have h := hsame a (by simp) b (by simp)
    simp [JSObject.keys, h] at hnd

theorem disjointGroups_filter_length (o : JSObject ElementsTrigger) (h : disjointGroups o)
    (e : Elem) : (o.filter (fun entry => entry.2.elements.contains e)).length ≤ 1 := by
  apply length_le_one_of_keys
  · exact (List.Sublist.map _ (List.filter_sublist _)).nodup h.1
  · intro a ha b hb
    rw [List.mem_filter] at ha hb
    exact h.2.2 a ha.1 b hb.1 e (by simpa using ha.2) (by simpa using hb.2)

theorem disjointGroups_append (o : JSObject ElementsTrigger) (id : String)
    (group : ElementsTrigger) (h : disjointGroups o) (hid : id ∉ o.keys) (hne : id ≠ "")
    (hnew : ∀ e ∈ group.elements, ∀ entry ∈ o, e ∉ entry.2.elements) :
    disjointGroups (o ++ [(id, group)]) := by
  refine ⟨?_, ?_, ?_⟩
  · have hk : JSObject.keys (o ++ [(id, group)]) = o.keys ++ [id] := by simp [JSObject.keys]
    rw [hk]
    exact List.Nodup.append h.1 (List.nodup_singleton _) (by simpa using hid)
  · intro a ha
    rcases List.mem_append.mp ha with ha | ha
    · exact h.2.1 a ha
    · rw [List.mem_singleton] at ha
      subst ha
      exact hne
  · intro a ha b hb e hea heb
    rcases List.mem_append.mp ha with ha | ha <;> rcases List.mem_append.mp hb with hb | hb
    · exact h.2.2 a ha b hb e hea heb
    · rw [List.mem_singleton] at hb
      subst hb
      exact absurd hea (hnew e heb a ha)
    · rw [List.mem_singleton] at ha
      subst ha
      exact absurd heb (hnew e hea b hb)
    · rw [List.mem_singleton] at ha hb
      rw [ha, hb]

/-- What `Ripple.attach` leaves of the groups when it returns: the groups as
they were, or with the group of the elements it was given assigned at the
identifier it drew. -/
theorem attach_triggerElements (R R' : Ripple) (elements options : JSVal)
    (rand : Nat → Fin 52) (h : Ripple.attach R elements options rand = .ok R') :
    R'.triggerElements = R.triggerElements ∨
      R'.triggerElements = R.triggerElements.set (genRandomID rand 16)
        ⟨spread (orDefault options (.object [])), namedElements elements⟩ := by
  have harr : ∀ xs : List JSVal, namedElements elements = elementsOf (flat 16 xs) →
      (do
        let acc ← (flat 16 xs).foldlM (attachItem (orDefault options (.object []))) (R, [])
        if acc.2.length > 0 then
          attachElements acc.1 acc.2 (orDefault options (.object [])) rand
        else pure acc.1) = .ok R' →
      R'.triggerElements = R.triggerElements ∨
        R'.triggerElements = R.triggerElements.set (genRandomID rand 16)
          ⟨spread (orDefault options (.object [])), namedElements elements⟩ := by
    intro xs hnamed hrun
    simp only [foldlM_attachItem, bind, Except.bind, List.nil_append, attachElements,
      orDefault_idem, pure, Except.pure] at hrun
    split at hrun
    · injection hrun with hrun
      right
      rw [← hrun, hnamed]
    · injection hrun with hrun
      left
      rw [← hrun]
  cases elements with
  | undefined => simp [Ripple.attach, truthy] at h
  | null => simp [Ripple.attach, truthy] at h
  | nan => simp [Ripple.attach, truthy] at h
  | bool b => cases b <;> simp [Ripple.attach, truthy, isHTMLElement] at h
  | num q =>
    by_cases hq : q = 0 <;> simp [Ripple.attach, truthy, isHTMLElement, hq] at h
  | object props => simp [Ripple.attach, truthy, isHTMLElement] at h
  | str s =>
    by_cases hs : s = ""
    · simp [Ripple.attach, truthy, hs] at h
    · simp only [Ripple.attach, truthy, isHTMLElement, hs, ne_eq, not_false_eq_true,
        decide_True, Bool.not_true, Bool.false_eq_true, if_false, foldlM_attachClass] at h
      injection h with h
      left
      rw [← h, foldl_attach_triggerElements]
  | element e =>
    apply harr [.element e] rfl
    simpa only [Ripple.attach, truthy, isHTMLElement, Bool.not_true, Bool.false_eq_true,
      if_false, if_true] using h
  | array xs =>
    apply harr xs rfl
    simpa only [Ripple.attach, truthy, isHTMLElement, Bool.not_true, Bool.false_eq_true,
      if_false] using h

theorem detachElement_keys_sublist (R : Ripple) (v : JSVal) :
    (detachElement R v).1.triggerElements.keys.Sublist R.triggerElements.keys := by
  unfold detachElement
  split
  · exact List.Sublist.refl _
  · rename_i valueID group hfind
    have hmem := List.mem_of_find?_eq_some hfind
    have hkey : valueID ∈ R.triggerElements.keys := List.mem_map_of_mem Prod.fst hmem
    split
    · exact List.Sublist.refl _
    · dsimp only
      split
      · have hsub : (JSObject.delete (R.triggerElements.set valueID
            { group with elements := group.elements.filter (differs v) }) valueID).keys.Sublist
            (R.triggerElements.set valueID
              { group with elements := group.elements.filter (differs v) }).keys :=
          List.Sublist.map _ (List.filter_sublist _)
        rw [JSObject.keys_set_of_mem _ _ _ hkey] at hsub
        exact hsub
      · dsimp only
        rw [JSObject.keys_set_of_mem _ _ _ hkey]

theorem detachElement_disjointGroups (R : Ripple) (v : JSVal)
    (h : disjointGroups R.triggerElements) :
    disjointGroups (detachElement R v).1.triggerElements := by
  obtain ⟨-, hg⟩ := detachElement_groups R v
  refine ⟨(detachElement_keys_sublist R v).nodup h.1, ?_, ?_⟩
  · intro a ha
    obtain ⟨a0, ha0, hka, -⟩ := hg a ha
    exact hka ▸ h.2.1 a0 ha0
  · intro a ha b hb e hea heb
    obtain ⟨a0, ha0, hka, hsa⟩ := hg a ha
    obtain ⟨b0, hb0, hkb, hsb⟩ := hg b hb
    rw [← hka, ← hkb]
    exact h.2.2 a0 ha0 b0 hb0 e (hsa e hea) (hsb e heb)

theorem foldl_detachElement_disjointGroups (items : List JSVal) (R : Ripple)
    (h : disjointGroups R.triggerElements) :
    disjointGroups
      (items.foldl (fun R _element => (detachElement R _element).1) R).triggerElements := by
  induction items generalizing R with
  | nil => exact h
  | cons v rest ih => exact ih _ (detachElement_disjointGroups R v h)

theorem call_detach_disjointGroups (R : Ripple) (elements : JSVal)
    (h : disjointGroups R.triggerElements) :
    disjointGroups (R.call (.detach elements)).triggerElements := by
  unfold Ripple.call
  dsimp only
  split
  · rename_i result hres
    cases elements with
    | str s =>
      rw [detach_str_eq] at hres
      injection hres with hres
      rw [← hres, foldl_detachClass]
      exact h
    | undefined => simp [Ripple.detach, isHTMLElement, arrayFrom, bind, Except.bind] at hres
    | null => simp [Ripple.detach, isHTMLElement, arrayFrom, bind, Except.bind] at hres
    | nan =>
      simp only [Ripple.detach, isHTMLElement, arrayFrom, bind, Except.bind, pure, Except.pure,
        Bool.false_eq_true, if_false] at hres
      injection hres with hres
      rw [← hres]
      exact foldl_detachElement_disjointGroups _ R h
    | bool b =>
      simp only [Ripple.detach, isHTMLElement, arrayFrom, bind, Except.bind, pure, Except.pure,
        Bool.false_eq_true, if_false] at hres
      injection hres with hres
      rw [← hres]
      exact foldl_detachElement_disjointGroups _ R h
    | num q =>
      simp only [Ripple.detach, isHTMLElement, arrayFrom, bind, Except.bind, pure, Except.pure,
        Bool.false_eq_true, if_false] at hres
      injection hres with hres
      rw [← hres]
      exact foldl_detachElement_disjointGroups _ R h
    | object props =>
      simp only [Ripple.detach, isHTMLElement, arrayFrom, bind, Except.bind, pure, Except.pure,
        Bool.false_eq_true, if_false] at hres
      injection hres with hres
      rw [← hres]
      exact foldl_detachElement_disjointGroups _ R h
    | element e =>
      simp only [Ripple.detach, isHTMLElement, arrayFrom, bind, Except.bind, pure, Except.pure,
        if_true] at hres
      injection hres with hres
      rw [← hres]
      exact foldl_detachElement_disjointGroups _ R h
    | array xs =>
      simp only [Ripple.detach, isHTMLElement, arrayFrom, bind, Except.bind, pure, Except.pure,
        Bool.false_eq_true, if_false] at hres
      injection hres with hres
      rw [← hres]
      exact foldl_detachElement_disjointGroups _ R h
  · exact h

/-- A group of elements that are in no group, assigned under a key that is
there already: the group takes the place of the one under the key. -/
theorem disjointGroups_replace (o : JSObject ElementsTrigger) (id : String)
    (group : ElementsTrigger) (h : disjointGroups o) (hid : id ∈ o.keys) (hne : id ≠ "")
    (hnew : ∀ e ∈ group.elements, ∀ entry ∈ o, e ∉ entry.2.elements) :
    disjointGroups (o.set id group) := by
  have hhas := JSObject.has_of_mem_keys o id hid
  refine ⟨?_, ?_, ?_⟩
  · rw [JSObject.keys_set_of_mem o id group hid]
    exact h.1
  · intro a ha
    rcases JSObject.mem_set_of_has o id group hhas a ha with ha | ha
    · rw [ha]
      exact hne
    · exact h.2.1 a ha.1
  · intro a ha b hb e hea heb
    rcases JSObject.mem_set_of_has o id group hhas a ha with ha | ha <;>
      rcases JSObject.mem_set_of_has o id group hhas b hb with hb | hb
    · rw [ha, hb]
    · rw [ha] at hea
      exact absurd heb (hnew e hea b hb.1)
    · rw [hb] at heb
      exact absurd hea (hnew e heb a ha.1)
    · exact h.2.2 a ha.1 b hb.1 e hea heb

theorem call_attach_disjointGroups (R : Ripple) (elements options : JSVal)
    (rand : Nat → Fin 52) (h : disjointGroups R.triggerElements)
    (hnew : ∀ e ∈ namedElements elements, ∀ entry ∈ R.triggerElements, e ∉ entry.2.elements) :
    disjointGroups (R.call (.attach elements options rand)).triggerElements := by
  unfold Ripple.call
  dsimp only
  split
  · rename_i R' hres
    rcases attach_triggerElements R R' elements options rand hres with h' | h'
    · rw [h']
      exact h
    · rw [h']
      by_cases hid : genRandomID rand 16 ∈ R.triggerElements.keys
      · exact disjointGroups_replace _ _ _ h hid (genRandomID_ne_empty rand) hnew
      · rw [JSObject.set_fresh _ _ _ hid (arrayIndex_genRandomID rand)
          (genRandomID_ne_proto rand)]
        exact disjointGroups_append _ _ _ h hid (genRandomID_ne_empty rand) hnew
  · exact h

theorem run_disjointGroups (calls : List Call) (R : Ripple)
    (h : disjointGroups R.triggerElements) (hdisc : disciplined R calls) :
    disjointGroups (Ripple.run R calls).triggerElements := by
  induction calls generalizing R with
  | nil => exact h
  | cons call rest ih =>
    have hstep : disjointGroups (R.call call).triggerElements := by
      cases call with
      | attach elements options rand =>
        exact call_attach_disjointGroups R elements options rand h hdisc.1
      | detach elements => exact call_detach_disjointGroups R elements h
    exact ih (R.call call) hstep hdisc.2

theorem disjointGroups_loaded : disjointGroups Ripple.loaded.triggerElements :=
  ⟨List.nodup_nil, fun _ ha => absurd ha (List.not_mem_nil _),
    fun _ ha => absurd ha (List.not_mem_nil _)⟩

/-- An element that is in a group and is attached again: the group of the
new registration is appended after the groups that were there, and the lookup
of `passArguments` still finds the group that held the element before. -/
theorem attach_element_again (R : Ripple) (el : Elem) (options : JSVal) (rand : Nat → Fin 52)
    (key : String) (group : ElementsTrigger) (hkeys : ∀ a ∈ R.triggerElements, a.1 ≠ "")
    (hfind : R.triggerElements.find? (fun entry => entry.2.elements.contains el)
      = some (key, group))
    (hid : genRandomID rand 16 ∉ R.triggerElements.keys) :
    ∃ R', Ripple.attach R (.element el) options rand = .ok R' ∧
      R'.triggerElements = R.triggerElements ++
        [(genRandomID rand 16, ⟨spread (orDefault options (.object [])), [el]⟩)] ∧
      groupStep R' el none = some ⟨el, [el], group.ripple⟩ := by
  have hflat : flat 16 [JSVal.element el] = [JSVal.element el] := rfl
  have hatt : Ripple.attach R (.element el) options rand
      = .ok ⟨R.triggerClasses, R.triggerElements ++
          [(genRandomID rand 16, ⟨spread (orDefault options (.object [])), [el]⟩)]⟩ := by
    simp only [Ripple.attach, truthy, isHTMLElement, Bool.not_true, Bool.false_eq_true,
      if_false, if_true, bind, Except.bind, hflat, foldlM_attachItem, List.nil_append,
      attachElements, orDefault_idem, pure, Except.pure]
    simp only [strings, elementsOf, List.filterMap_cons, List.filterMap_nil, List.foldl_nil,
      List.length_singleton, gt_iff_lt, Nat.lt_one_iff, Nat.zero_lt_one, if_true]
    rw [JSObject.set_fresh _ _ _ hid (arrayIndex_genRandomID rand)
      (genRandomID_ne_proto rand)]
  refine ⟨_, hatt, rfl, ?_⟩
  have hmem := List.mem_of_find?_eq_some hfind
  have hin : group.elements.contains el = true := by
    have := List.find?_some hfind
    simpa using this
  unfold groupStep
  have hkey : key ≠ "" := hkeys _ hmem
  simp only [List.find?_append, hfind, Option.or, if_neg hkey, hin, if_true]

/-- C16 (amended). For every sequence of `Ripple.attach` and `Ripple.detach`
calls on the loaded registry in which no attach names an element that is in a
group when the call is made, every element is in the element list of at most
one group of `triggerElements` afterwards. An element of a group that is then
attached again, under an identifier that is no key yet, is in two groups, the
new one after the old ones, and the group lookup of `passArguments` finds the
options of the earlier registration, not those of the last. -/
theorem attach_detach_one_group_first_found (calls : List Call)
    (hdisc : disciplined Ripple.loaded calls) :
    (∀ e, ((Ripple.run Ripple.loaded calls).triggerElements.filter
        (fun entry => entry.2.elements.contains e)).length ≤ 1) ∧
      ∀ (el : Elem) (options : JSVal) (rand : Nat → Fin 52) (key : String)
        (group : ElementsTrigger),
        (Ripple.run Ripple.loaded calls).triggerElements.find?
            (fun entry => entry.2.elements.contains el) = some (key, group) →
        genRandomID rand 16 ∉ (Ripple.run Ripple.loaded calls).triggerElements.keys →
        ∃ R', Ripple.attach (Ripple.run Ripple.loaded calls) (.element el) options rand
            = .ok R' ∧
          R'.triggerElements = (Ripple.run Ripple.loaded calls).triggerElements ++
            [(genRandomID rand 16, ⟨spread (orDefault options (.object [])), [el]⟩)] ∧
          (R'.triggerElements.filter (fun entry => entry.2.elements.contains el)).length = 2 ∧
          groupStep R' el none = some ⟨el, [el], group.ripple⟩ := by
  have hinv := run_disjointGroups calls Ripple.loaded disjointGroups_loaded hdisc
  refine ⟨disjointGroups_filter_length _ hinv, ?_⟩
  intro el options rand key group hfind hid
  obtain ⟨R', hatt, hte, hstep⟩ :=
    attach_element_again _ el options rand key group hinv.2.1 hfind hid
  refine ⟨R', hatt, hte, ?_, hstep⟩
  have hle := disjointGroups_filter_length _ hinv el
  have hmem := List.mem_of_find?_eq_some hfind
  have hin : group.elements.contains el = true := by
    have := List.find?_some hfind
    simpa using this
  have hpos : 0 < ((Ripple.run Ripple.loaded calls).triggerElements.filter
      (fun entry => entry.2.elements.contains el)).length :=
    List.length_pos_of_mem (List.mem_filter.mpr ⟨hmem, hin⟩)
  rw [hte, List.filter_append, List.length_append]
  have hlast : (List.filter (fun entry : String × ElementsTrigger => entry.2.elements.contains el)
      [(genRandomID rand 16, ⟨spread (orDefault options (.object [])), [el]⟩)]).length = 1 := by
    simp
  rw [hlast]
  omega

/-- C16 (amended), at the calls `Ripple.attach([1, 2], {centered: true})`,
`Ripple.detach(2)`, `Ripple.attach(2, {})` and the element `1`, attached
again with `{centered: false}`. -/
theorem attach_detach_one_group_first_found_witness :
    disciplined Ripple.loaded
        [.attach (.array [.element 1, .element 2]) (.object [("centered", .bool true)])
            (fun _ => 0),
          .detach (.element 2),
          .attach (.element 2) (.object []) (fun _ => 1)] ∧
      ((Ripple.run Ripple.loaded
          [.attach (.array [.element 1, .element 2]) (.object [("centered", .bool true)])
              (fun _ => 0),
            .detach (.element 2),
            .attach (.element 2) (.object []) (fun _ => 1)]).triggerElements.filter
        (fun entry => entry.2.elements.contains 1)).length ≤ 1 ∧
      ∃ R', Ripple.attach (Ripple.run Ripple.loaded
          [.attach (.array [.element 1, .element 2]) (.object [("centered", .bool true)])
              (fun _ => 0),
            .detach (.element 2),
            .attach (.element 2) (.object []) (fun _ => 1)])
          (.element 1) (.object [("centered", .bool false)]) (fun _ => 2) = .ok R' ∧
        R'.triggerElements = (Ripple.run Ripple.loaded
          [.attach (.array [.element 1, .element 2]) (.object [("centered", .bool true)])
              (fun _ => 0),
            .detach (.element 2),
            .attach (.element 2) (.object []) (fun _ => 1)]).triggerElements ++
          [(genRandomID (fun _ => 2) 16,
            ⟨spread (orDefault (.object [("centered", .bool false)]) (.object [])), [1]⟩)] ∧
        (R'.triggerElements.filter (fun entry => entry.2.elements.contains 1)).length = 2 ∧
        groupStep R' 1 none = some ⟨1, [1], [("centered", .bool true)]⟩ :=
  have hdisc : disciplined Ripple.loaded
      [.attach (.array [.element 1, .element 2]) (.object [("centered", .bool true)])
          (fun _ => 0),
        .detach (.element 2),
        .attach (.element 2) (.object []) (fun _ => 1)] :=
    ⟨fun _ _ _ h => absurd h (List.not_mem_nil _), trivial, by decide, trivial⟩
  ⟨hdisc, (attach_detach_one_group_first_found _ hdisc).1 1,
    (attach_detach_one_group_first_found _ hdisc).2 1 (.object [("centered", .bool false)])
      (fun _ => 2) "AAAAAAAAAAAAAAAA" ⟨[("centered", .bool true)], [1]⟩ rfl (by decide)⟩

/-- An element of a group that is attached again under the identifier of its
group: the new group takes the place of the old one, the element is in one
group, and the lookup finds the options of the last registration. -/
theorem attach_again_same_identifier :
    ((Ripple.run Ripple.loaded
        [.attach (.element 1) (.object [("centered", .bool true)]) (fun _ => 0),
          .attach (.element 1) (.object [("centered", .bool false)])
            (fun _ => 0)]).triggerElements.filter
      (fun entry => entry.2.elements.contains 1)).length = 1 ∧
    (groupStep (Ripple.run Ripple.loaded
        [.attach (.element 1) (.object [("centered", .bool true)]) (fun _ => 0),
          .attach (.element 1) (.object [("centered", .bool false)]) (fun _ => 0)]) 1
      none).map (fun r => prop r.tempOptions "centered") = some (.bool false) :=
  ⟨rfl, rfl⟩

/-- C16, refuted as stated: after `Ripple.attach(1, {centered: true})` and
`Ripple.attach(1, {centered: false})` the element `1` is in two groups, and
the group lookup of `passArguments` finds the options of the first
registration. -/
theorem attach_twice_two_groups_first_found :
    ((Ripple.run Ripple.loaded
        [.attach (.element 1) (.object [("centered", .bool true)]) (fun _ => 0),
          .attach (.element 1) (.object [("centered", .bool false)])
            (fun _ => 1)]).triggerElements.filter
      (fun entry => entry.2.elements.contains 1)).length = 2 ∧
    (Ripple.run Ripple.loaded
        [.attach (.element 1) (.object [("centered", .bool true)]) (fun _ => 0),
          .attach (.element 1) (.object [("centered", .bool false)])
            (fun _ => 1)]).triggerElements.map (fun entry => prop entry.2.ripple "centered")
      = [.bool true, .bool false] ∧
    (groupStep (Ripple.run Ripple.loaded
        [.attach (.element 1) (.object [("centered", .bool true)]) (fun _ => 0),
          .attach (.element 1) (.object [("centered", .bool false)]) (fun _ => 1)]) 1
      none).map (fun r => prop r.tempOptions "centered") = some (.bool true) :=
  ⟨rfl, rfl, rfl⟩

end RippleJS
